import Mathlib

/-!
# Verification of the flvx federation reservation core

Shallow embedding of the federation control-plane of the flvx panel
(peer-share issuance, port reservation, tunnel bindings, flow accounting,
schema migration) together with proofs of the specified properties.

Functions present in the repository sources are translated directly from
them (`flowUpload`, the SQLite dual-stack migration).  Functions whose
bodies are not part of the excerpt but whose tests and callers are
(`pickPeerSharePort`, `processFlowItem`, `federationShareCreate`,
`authPeer`, `buildForwardControlServiceNames`,
`shouldTryLegacySingleService`, the reservation coordinator) are modelled
from the specification; each such definition carries a doc comment
starting with `Modelled from the spec:`.
-/

namespace Flvx

/-! ## Generic string helpers (character-list based, kernel friendly) -/

/-- Whitespace test used by the string helpers (space, tab, CR, LF). -/
def isWsChar (c : Char) : Bool :=
  c = ' ' || c = '\t' || c = '\n' || c = '\r'

/-- Trim whitespace from both ends of a character list. -/
def trimChars (l : List Char) : List Char :=
  ((l.dropWhile isWsChar).reverse.dropWhile isWsChar).reverse

/-- Trim whitespace from both ends of a string. -/
def trimStr (s : String) : String :=
  String.mk (trimChars s.data)

/-- Lower-case a string character by character. -/
def lowerStr (s : String) : String :=
  String.mk (s.data.map Char.toLower)

/-- Split a character list on a separator character.
Mirrors Go `strings.Split` / Java `String.split` on a one-character
separator: the empty list yields one empty field. -/
def splitOnChar (sep : Char) : List Char → List (List Char)
  | [] => [[]]
  | c :: rest =>
      let r := splitOnChar sep rest
      if c = sep then
        [] :: r
      else
        match r with
        | [] => [[c]]
        | h :: t => (c :: h) :: t

/-- Split a string on a separator character into strings. -/
def splitStr (sep : Char) (s : String) : List String :=
  (splitOnChar sep s.data).map String.mk

/-- Does `pat` occur as a contiguous run inside `l`? -/
def containsRun (l pat : List Char) : Bool :=
  match l with
  | [] => pat.isEmpty
  | _ :: rest => pat.isPrefixOf l || containsRun rest pat

/-- Substring containment on strings. -/
def strContains (s pat : String) : Bool :=
  containsRun s.data pat.data

/-- Decimal digit test. -/
def isDigitChar (c : Char) : Bool :=
  '0' ≤ c && c ≤ '9'

/-- Numeric value of a decimal digit character. -/
def digitVal (c : Char) : Nat :=
  c.toNat - '0'.toNat

/-- Parse a non-empty all-digit character list as a natural number. -/
def parseNatDigits : List Char → Option Nat
  | [] => none
  | l =>
      if l.all isDigitChar then
        some (l.foldl (fun acc c => acc * 10 + digitVal c) 0)
      else
        none

/-- Parse a base-10 integer with optional sign, as Go `strconv.ParseInt`
does for base 10 (sign, then at least one digit, nothing else). -/
def parseIntChars : List Char → Option Int
  | '-' :: rest => (parseNatDigits rest).map (fun n => -(n : Int))
  | '+' :: rest => (parseNatDigits rest).map (fun n => (n : Int))
  | l => (parseNatDigits l).map (fun n => (n : Int))

/-! ## C8: forward-control service-name targeting

The repository's tests (`TestBuildForwardControlServiceNames*`,
`TestShouldTryLegacySingleService`) exercise two helpers whose bodies are
not part of the excerpt. -/

/-- Modelled from the spec: `buildForwardControlServiceNames` (body absent
from the excerpt; behaviour fixed by §6 "Flow-control commands
(PauseService/ResumeService) target `{base+"_tcp", base+"_udp"}`;
DeleteService additionally targets the bare base" and by the handler
tests, which trim the command). -/
def buildForwardControlServiceNames (base command : String) : List String :=
  if trimStr command = "DeleteService" then
    [base, base ++ "_tcp", base ++ "_udp"]
  else
    [base ++ "_tcp", base ++ "_udp"]

/-- Modelled from the spec: `shouldTryLegacySingleService` (body absent
from the excerpt; behaviour fixed by §6 "legacy fallback to the bare base
applies to Pause/Resume only (case-insensitive command match)" and the
handler tests). -/
def shouldTryLegacySingleService (command : String) : Bool :=
  lowerStr (trimStr command) = "pauseservice" ||
    lowerStr (trimStr command) = "resumeservice"

/-- C8: PauseService and ResumeService target exactly
`{base_tcp, base_udp}`; DeleteService additionally targets the bare base;
the legacy single-service fallback is taken for Pause/Resume only,
matched case-insensitively, and never for DeleteService. -/
theorem forward_control_targets (base : String) :
    buildForwardControlServiceNames base "PauseService" =
      [base ++ "_tcp", base ++ "_udp"] ∧
    buildForwardControlServiceNames base "ResumeService" =
      [base ++ "_tcp", base ++ "_udp"] ∧
    buildForwardControlServiceNames base "DeleteService" =
      [base, base ++ "_tcp", base ++ "_udp"] ∧
    (∀ c : String, lowerStr (trimStr c) = "pauseservice" ∨
        lowerStr (trimStr c) = "resumeservice" →
      shouldTryLegacySingleService c = true) ∧
    shouldTryLegacySingleService "DeleteService" = false := by
  refine ⟨?_, ?_, ?_, ?_, ?_⟩
  · simp [buildForwardControlServiceNames]; decide
  · simp [buildForwardControlServiceNames]; decide
  · simp [buildForwardControlServiceNames]; decide
  · intro c hc
    rcases hc with h | h <;> simp [shouldTryLegacySingleService, h]
  · decide

/-- Witness for C8 at the repository test's inputs: the case-insensitive
legacy match accepts `resumeService`. -/
theorem forward_control_targets_witness :
    shouldTryLegacySingleService "resumeService" = true :=
  (forward_control_targets "12_34_56").2.2.2.1 "resumeService"
    (Or.inr (by decide))

/-! ## C9: idempotent dual-stack schema migration

Translated from `SQLiteConfig.ensureNodeDualStackColumns` /
`backfillNodeDualStackColumns` / `ensureColumnIfMissing`
(src/springboot-backend/.../SQLiteConfig.java). -/

/-- Java `String.isBlank`: empty or whitespace only. A SQL NULL column
value is read back as the empty string, which is blank. -/
def isBlankStr (s : String) : Bool :=
  s.data.all isWsChar

/-- One row of the `node` table as the migration reads it
(`SELECT id, server_ip, server_ip_v4, server_ip_v6 FROM node`). -/
structure NodeMigRow where
  id : Nat
  serverIp : String
  v4 : String
  v6 : String
deriving DecidableEq

/-- The `node` table as the migration sees it: whether the two dual-stack
columns exist, and the rows. While a column is missing every row's value
for it is the empty string (reading the column after `ALTER TABLE ... ADD
COLUMN` yields NULL). -/
structure NodeTable where
  hasV4 : Bool
  hasV6 : Bool
  rows : List NodeMigRow
deriving DecidableEq

/-- One octet alternative of the Java IPv4 pattern
`25[0-5]|2[0-4][0-9]|[01]?[0-9][0-9]?`. -/
def octetMatch : List Char → Bool
  | [a] => isDigitChar a
  | [a, b] => isDigitChar a && isDigitChar b
  | [a, b, c] =>
      (a = '2' && b = '5' && '0' ≤ c && c ≤ '5') ||
      (a = '2' && '0' ≤ b && b ≤ '4' && isDigitChar c) ||
      ((a = '0' || a = '1') && isDigitChar b && isDigitChar c)
  | _ => false

/-- The anchored IPv4 regular expression used by
`backfillNodeDualStackColumns`: four octet groups joined by literal
dots. -/
def ipv4RegexMatch (s : String) : Bool :=
  let parts := splitOnChar '.' s.data
  parts.length == 4 && parts.all octetMatch

/-- `ensureColumnIfMissing` for both dual-stack columns: after this the
columns exist; rows of a previously missing column read as NULL (""). -/
def addMissingColumns (t : NodeTable) : NodeTable :=
  { hasV4 := true
    hasV6 := true
    rows := t.rows.map fun r =>
      { r with
        v4 := if t.hasV4 then r.v4 else ""
        v6 := if t.hasV6 then r.v6 else "" } }

/-- The per-row body of `backfillNodeDualStackColumns`: skip blank
`server_ip`, skip rows where either new column is already populated,
classify the trimmed value by the IPv4 regex, else by the at-least-two
colons IPv6 heuristic, else leave the row unchanged. -/
def backfillRow (r : NodeMigRow) : NodeMigRow :=
  if isBlankStr r.serverIp then r
  else if !isBlankStr r.v4 || !isBlankStr r.v6 then r
  else
    let tr := trimStr r.serverIp
    if ipv4RegexMatch tr then { r with v4 := tr }
    else if 2 ≤ tr.data.count ':' then { r with v6 := tr }
    else r

/-- `backfillNodeDualStackColumns`: apply the backfill to every row. -/
def backfillTable (t : NodeTable) : NodeTable :=
  { t with rows := t.rows.map backfillRow }

/-- `ensureNodeDualStackColumns`: a missing `node` table (empty
`getTableColumns`) means no action; otherwise add the missing columns and
run the backfill. -/
def ensureNodeDualStackColumns : Option NodeTable → Option NodeTable
  | none => none
  | some t => some (backfillTable (addMissingColumns t))

theorem all_dropWhile_ws (l : List Char) :
    ((l.dropWhile isWsChar).all isWsChar) = l.all isWsChar := by
  induction l with
  | nil => rfl
  | cons c t ih =>
    by_cases h : isWsChar c = true
    · simpa [List.dropWhile_cons, h] using ih
    · simp [List.dropWhile_cons, h]

theorem isBlankStr_trimStr (s : String) :
    isBlankStr (trimStr s) = isBlankStr s := by
  show (trimChars s.data).all isWsChar = s.data.all isWsChar
  unfold trimChars
  rw [List.all_reverse, all_dropWhile_ws, List.all_reverse,
    all_dropWhile_ws]

theorem backfillRow_idem (r : NodeMigRow) :
    backfillRow (backfillRow r) = backfillRow r := by
  unfold backfillRow
  by_cases h1 : isBlankStr r.serverIp = true
  · simp [h1]
  · by_cases h2 : (!isBlankStr r.v4 || !isBlankStr r.v6) = true
    · simp [h1, h2]
    · by_cases h3 : ipv4RegexMatch (trimStr r.serverIp) = true
      · simp [h1, h2, h3, isBlankStr_trimStr]
      · by_cases h4 : 2 ≤ (trimStr r.serverIp).data.count ':'
        · simp [h1, h2, h3, h4, isBlankStr_trimStr]
        · simp [h1, h2, h3, h4]

theorem map_backfillRow_idem (l : List NodeMigRow) :
    (l.map backfillRow).map backfillRow = l.map backfillRow := by
  induction l with
  | nil => rfl
  | cons a t ih => simp [backfillRow_idem, ih]

theorem map_row_eta (l : List NodeMigRow) :
    (l.map fun r => ({ r with v4 := r.v4, v6 := r.v6 } : NodeMigRow)) =
      l := by
  induction l with
  | nil => rfl
  | cons a t ih => simp [ih]

/-- C9: the dual-stack schema migration is idempotent — the columns are
added only when missing, already-populated columns are never overwritten,
and a second run of `ensureNodeDualStackColumns` changes nothing. -/
theorem ensureNodeDualStackColumns_idempotent (db : Option NodeTable) :
    ensureNodeDualStackColumns (ensureNodeDualStackColumns db) =
      ensureNodeDualStackColumns db := by
  cases db with
  | none => rfl
  | some t =>
    show some _ = some _
    unfold backfillTable addMissingColumns
    simp only [Option.some.injEq, NodeTable.mk.injEq, true_and, if_true]
    rw [map_row_eta, map_backfillRow_idem]

/-! ## C10: `/flow/upload` with an unknown node secret

Translated from `Handler.flowUpload`
(src/go-backend/internal/http/handler/handler.go, lines 416-446). -/

/-- One element of the uploaded `[{n,u,d}]` array. -/
structure FlowItem where
  n : String
  u : Int
  d : Int
deriving DecidableEq

/-- One recorded `repo.AddFlow(forwardID, userID, userTunnelID, d, u)`
call: the only store mutation `flowUpload` performs. -/
structure FlowEntry where
  forwardId : Int
  userId : Int
  userTunnelId : Int
  down : Int
  up : Int
deriving DecidableEq

/-- The store state `flowUpload` touches: the node secrets (for
`NodeExistsBySecret`) and the user-tunnel flow counters, kept as the log
of `AddFlow` calls. -/
structure FlowStore where
  nodeSecrets : List String
  flows : List FlowEntry
deriving DecidableEq

/-- `repo.NodeExistsBySecret`. -/
def nodeExistsBySecret (s : FlowStore) (secret : String) : Bool :=
  s.nodeSecrets.contains secret

/-- `repo.AddFlow`. -/
def addFlow (s : FlowStore) (forwardId userId userTunnelId d u : Int) :
    FlowStore :=
  { s with flows := s.flows ++ [⟨forwardId, userId, userTunnelId, d, u⟩] }

/-- A `/flow/upload` request: the `secret` query parameter and the result
of `readAndDecryptFlowBody` followed by `json.Unmarshal` (`none` when the
body is empty, unreadable or not a JSON array). -/
structure FlowUploadRequest where
  secret : String
  items : Option (List FlowItem)

/-- The per-item body of the `flowUpload` loop: split `n` on `_`; skip
items with fewer than three parts or named `web_api`; skip items whose
first three parts are not integers; otherwise `AddFlow`. -/
def flowUploadItemStep (s : FlowStore) (item : FlowItem) : FlowStore :=
  match splitOnChar '_' item.n.data with
  | p0 :: p1 :: p2 :: _ =>
      if item.n = "web_api" then s
      else
        match parseIntChars p0, parseIntChars p1, parseIntChars p2 with
        | some f, some uid, some ut => addFlow s f uid ut item.d item.u
        | _, _, _ => s
  | _ => s

/-- `Handler.flowUpload`: if no node matches the secret, answer `"ok"`
without touching the store; otherwise process the items and still answer
`"ok"`. -/
def flowUpload (s : FlowStore) (req : FlowUploadRequest) :
    FlowStore × String :=
  if nodeExistsBySecret s req.secret then
    match req.items with
    | some items => (items.foldl flowUploadItemStep s, "ok")
    | none => (s, "ok")
  else
    (s, "ok")

/-- C10: a `/flow/upload` request whose secret matches no node leaves the
store untouched, and every request — valid secret or not — receives the
same plain-text body `"ok"`. -/
theorem flowUpload_unknown_secret_frame (s : FlowStore)
    (req : FlowUploadRequest) :
    (nodeExistsBySecret s req.secret = false →
      flowUpload s req = (s, "ok")) ∧
    (flowUpload s req).2 = "ok" := by
  constructor
  · intro h
    simp [flowUpload, h]
  · unfold flowUpload
    by_cases h : nodeExistsBySecret s req.secret = true
    · cases req.items <;> simp [h]
    · simp [h]

/-- Witness for C10: a concrete store with one node secret and a request
carrying a wrong secret with a parseable item; the store is unchanged and
the body is `"ok"`. -/
theorem flowUpload_unknown_secret_frame_witness :
    nodeExistsBySecret ⟨["node-secret"], []⟩ "wrong-secret" = false ∧
      flowUpload ⟨["node-secret"], []⟩
          ⟨"wrong-secret", some [⟨"1_2_3", 5, 6⟩]⟩ =
        (⟨["node-secret"], []⟩, "ok") :=
  ⟨by decide,
    (flowUpload_unknown_secret_frame ⟨["node-secret"], []⟩
        ⟨"wrong-secret", some [⟨"1_2_3", 5, 6⟩]⟩).1 (by decide)⟩

/-! ## Shared federation data model (§3 of the spec)

Only the attributes the verified operations read are carried. -/

/-- A node row (§3 Node): identity, port range, federation
discriminator. -/
structure NodeRec where
  id : Nat
  portRangeStart : Nat
  portRangeEnd : Nat
  isRemote : Nat
  status : Nat
deriving DecidableEq

/-- A peer share row (§3 Peer Share). -/
structure PeerShare where
  id : Nat
  name : String
  nodeId : Nat
  token : String
  maxBandwidth : Int
  currentFlow : Int
  expiryTime : Nat
  portRangeStart : Nat
  portRangeEnd : Nat
  isActive : Nat
  allowedDomains : String
  allowedIps : String
deriving DecidableEq

/-- The reservation idempotency key: the spec's
`resource_key = hash(tunnelName, chainType, position)` modelled as the
hashed triple itself. -/
structure ResourceKey where
  tunnelName : String
  chainType : Nat
  position : Nat
deriving DecidableEq

/-- A peer share runtime row (§3 Peer Share Runtime): a Provider-side
committed reservation. -/
structure RuntimeRow where
  id : Nat
  shareId : Nat
  nodeId : Nat
  reservationId : Nat
  resourceKey : ResourceKey
  port : Nat
  serviceName : String
  applied : Nat
  status : Nat
deriving DecidableEq

/-- The Provider panel's store and session registry: node and share
tables, runtime reservations, the local tunnel-plane port tables
(`chain_tunnel`, `forward_port` as (node_id, port) pairs), the set of
nodes with a live control channel, the user-tunnel flow log, fresh-id
state and the clock used for expiry checks. -/
structure ProviderStore where
  nodes : List NodeRec
  shares : List PeerShare
  runtimes : List RuntimeRow
  chainPorts : List (Nat × Nat)
  forwardPorts : List (Nat × Nat)
  liveNodes : List Nat
  userFlows : List FlowEntry
  nextReservationId : Nat
  nextShareId : Nat
  nextToken : Nat
  now : Nat
deriving DecidableEq

/-- The `{code,msg}` part of the response envelope. -/
structure PeerResponse where
  code : Int
  msg : String
deriving DecidableEq

/-! ## IP address and CIDR parsing (used by share create and authPeer) -/

/-- A decimal octet: one to three digits with value at most 255. -/
def isOctetChars (p : List Char) : Bool :=
  decide (1 ≤ p.length) && decide (p.length ≤ 3) && p.all isDigitChar &&
    decide (p.foldl (fun acc c => acc * 10 + digitVal c) 0 ≤ 255)

/-- Value of an all-digit character group. -/
def decGroupVal (p : List Char) : Nat :=
  p.foldl (fun acc c => acc * 10 + digitVal c) 0

/-- Dotted-quad IPv4 syntax. -/
def isIPv4Str (s : String) : Bool :=
  let parts := splitOnChar '.' s.data
  parts.length == 4 && parts.all isOctetChars

/-- Numeric value of a dotted-quad IPv4 address. -/
def ipv4ToNat (s : String) : Nat :=
  (splitOnChar '.' s.data).foldl (fun acc p => acc * 256 + decGroupVal p) 0

/-- Hexadecimal digit. -/
def isHexChar (c : Char) : Bool :=
  isDigitChar c || ('a' ≤ c && c ≤ 'f') || ('A' ≤ c && c ≤ 'F')

/-- Value of a hexadecimal digit. -/
def hexVal (c : Char) : Nat :=
  if isDigitChar c then digitVal c
  else if 'a' ≤ c && c ≤ 'f' then c.toNat - 'a'.toNat + 10
  else c.toNat - 'A'.toNat + 10

/-- A 16-bit IPv6 group: one to four hex digits. -/
def isHexGroup (p : List Char) : Bool :=
  decide (1 ≤ p.length) && decide (p.length ≤ 4) && p.all isHexChar

/-- Value of a hex group. -/
def hexGroupVal (p : List Char) : Nat :=
  p.foldl (fun acc c => acc * 16 + hexVal c) 0

/-- Split a character list at the first `::`, if any. -/
def breakDoubleColon : List Char → Option (List Char × List Char)
  | [] => none
  | ':' :: ':' :: rest => some ([], rest)
  | c :: rest => (breakDoubleColon rest).map (fun ab => (c :: ab.1, ab.2))

/-- Parse a non-empty colon-separated run of hex groups. -/
def parseHexGroups (l : List Char) : Option (List Nat) :=
  let parts := splitOnChar ':' l
  if parts.all isHexGroup then some (parts.map hexGroupVal) else none

/-- Numeric value of an IPv6 address, honouring one `::` compression;
`none` when the text is not a valid IPv6 address. -/
def ipv6ToNat (s : String) : Option Nat :=
  match breakDoubleColon s.data with
  | some (l, r) =>
      if (breakDoubleColon r).isSome then none
      else
        match (if l.isEmpty then some [] else parseHexGroups l),
            (if r.isEmpty then some [] else parseHexGroups r) with
        | some gl, some gr =>
            if gl.length + gr.length ≤ 7 then
              some ((gl ++ List.replicate (8 - gl.length - gr.length) 0 ++
                gr).foldl (fun acc g => acc * 65536 + g) 0)
            else none
        | _, _ => none
  | none =>
      match parseHexGroups s.data with
      | some gs =>
          if gs.length == 8 then
            some (gs.foldl (fun acc g => acc * 65536 + g) 0)
          else none
      | none => none

/-- IPv6 syntax. -/
def isIPv6Str (s : String) : Bool :=
  (ipv6ToNat s).isSome

/-- Numeric form of an IP address: the address family (false = v4,
true = v6) and the value. -/
def ipToNat (s : String) : Option (Bool × Nat) :=
  if isIPv4Str s then some (false, ipv4ToNat s)
  else (ipv6ToNat s).map (fun v => (true, v))

/-- CIDR syntax: `ip/plen` with a v4 base and plen ≤ 32, or a v6 base
and plen ≤ 128. -/
def isCIDRStr (s : String) : Bool :=
  match splitOnChar '/' s.data with
  | [ip, plen] =>
      match parseNatDigits plen with
      | some n =>
          (isIPv4Str (String.mk ip) && decide (n ≤ 32)) ||
            (isIPv6Str (String.mk ip) && decide (n ≤ 128))
      | none => false
  | _ => false

/-- An allow-list entry is valid when it parses as a plain IPv4 or IPv6
address or as a CIDR block. -/
def isValidAllowedEntry (e : String) : Bool :=
  isIPv4Str e || isIPv6Str e || isCIDRStr e

/-- Split a comma-separated allow-list, trimming entries and dropping
empty ones. -/
def allowedIpsList (s : String) : List String :=
  ((splitStr ',' s).map trimStr).filter (fun e => !e.isEmpty)

/-- Does a CIDR entry contain the given address? Families must agree and
the first plen bits must coincide. -/
def cidrMatch (entry ip : String) : Bool :=
  match splitOnChar '/' entry.data with
  | [base, plen] =>
      match parseNatDigits plen, ipToNat (String.mk base), ipToNat ip with
      | some n, some bv, some iv =>
          let width := if bv.1 then 128 else 32
          bv.1 == iv.1 && decide (n ≤ width) &&
            bv.2 / 2 ^ (width - n) == iv.2 / 2 ^ (width - n)
      | _, _, _ => false
  | _ => false

/-- Does one allow-list entry (exact address or CIDR) match the given
address? -/
def entryMatchesIP (entry ip : String) : Bool :=
  (match ipToNat entry, ipToNat ip with
   | some a, some b => a == b
   | _, _ => false) ||
  cidrMatch entry ip

/-! ## C6 and C7: `federationShareCreate` -/

/-- `repo` node lookup by id. -/
def findNode (s : ProviderStore) (nodeId : Nat) : Option NodeRec :=
  s.nodes.find? (fun nd => nd.id == nodeId)

/-- The `/api/v1/federation/share/create` request body. -/
structure CreatePeerShareRequest where
  name : String
  nodeId : Nat
  maxBandwidth : Int
  expiryTime : Nat
  portRangeStart : Nat
  portRangeEnd : Nat
  allowedDomains : String
  allowedIps : String
deriving DecidableEq

/-- Modelled from the spec: `federationShareCreate` (body absent from
the excerpt; behaviour fixed by §4.C Create — fail
`REMOTE_NODE_FORBIDDEN` if the target node is remote,
`INVALID_ALLOWED_IPS` if any entry fails v4/v6/CIDR parsing,
`RANGE_OUT_OF_BOUNDS` if the port range escapes the node's; token
generated server-side — and by the share-create handler tests, which fix
the two error messages and that no row is inserted on error). -/
def federationShareCreate (s : ProviderStore)
    (req : CreatePeerShareRequest) : ProviderStore × PeerResponse :=
  match findNode s req.nodeId with
  | none => (s, ⟨-1, "Node not found"⟩)
  | some node =>
      if node.isRemote == 1 then
        (s, ⟨-1, "Only local nodes can be shared"⟩)
      else
        match (allowedIpsList req.allowedIps).find?
            (fun e => !isValidAllowedEntry e) with
        | some bad => (s, ⟨-1, "Invalid allowed IP or CIDR: " ++ bad⟩)
        | none =>
            if req.portRangeStart < node.portRangeStart ||
                node.portRangeEnd < req.portRangeEnd ||
                req.portRangeEnd < req.portRangeStart then
              (s, ⟨-1, "Port range out of node bounds"⟩)
            else
              let share : PeerShare :=
                { id := s.nextShareId
                  name := req.name
                  nodeId := req.nodeId
                  token := "fed-token-" ++ toString s.nextToken
                  maxBandwidth := req.maxBandwidth
                  currentFlow := 0
                  expiryTime := req.expiryTime
                  portRangeStart := req.portRangeStart
                  portRangeEnd := req.portRangeEnd
                  isActive := 1
                  allowedDomains := req.allowedDomains
                  allowedIps := req.allowedIps }
              ({ s with
                  shares := s.shares ++ [share]
                  nextShareId := s.nextShareId + 1
                  nextToken := s.nextToken + 1 },
                ⟨0, ""⟩)

/-- C6: a share-create request whose target node is remote is rejected
with exactly `code=-1, msg="Only local nodes can be shared"` and the
store is unchanged (zero share rows inserted). -/
theorem shareCreate_rejects_remote_node (s : ProviderStore)
    (req : CreatePeerShareRequest) (node : NodeRec)
    (hn : findNode s req.nodeId = some node)
    (hr : node.isRemote = 1) :
    federationShareCreate s req =
      (s, ⟨-1, "Only local nodes can be shared"⟩) := by
  unfold federationShareCreate
  rw [hn]
  simp [hr]

theorem prefixOf_append_self (l r : List Char) :
    l.isPrefixOf (l ++ r) = true := by
  induction l with
  | nil => simp [List.isPrefixOf]
  | cons c t ih => simp [List.isPrefixOf, ih]

theorem containsRun_of_prefixOf (l pat : List Char)
    (h : pat.isPrefixOf l = true) : containsRun l pat = true := by
  cases l with
  | nil =>
    cases pat with
    | nil => rfl
    | cons c t => simp [List.isPrefixOf] at h
  | cons a t => simp [containsRun, h]

/-- C7: a share-create request on a local node with some allow-list
entry failing IPv4/IPv6/CIDR parsing is rejected with `code=-1`, a
message containing "Invalid allowed IP or CIDR", and the store is
unchanged (zero share rows inserted). -/
theorem shareCreate_rejects_invalid_allowed_ips (s : ProviderStore)
    (req : CreatePeerShareRequest) (node : NodeRec) (bad : String)
    (hn : findNode s req.nodeId = some node)
    (hl : node.isRemote ≠ 1)
    (hbad : (allowedIpsList req.allowedIps).find?
        (fun e => !isValidAllowedEntry e) = some bad) :
    (federationShareCreate s req).1 = s ∧
      (federationShareCreate s req).2.code = -1 ∧
      strContains (federationShareCreate s req).2.msg
          "Invalid allowed IP or CIDR" = true := by
  have hr : (node.isRemote == 1) = false := by
    simpa using hl
  have hres : federationShareCreate s req =
      (s, ⟨-1, "Invalid allowed IP or CIDR: " ++ bad⟩) := by
    unfold federationShareCreate
    rw [hn]
    simp [hr, hbad]
  rw [hres]
  refine ⟨rfl, rfl, ?_⟩
  apply containsRun_of_prefixOf
  show ("Invalid allowed IP or CIDR" : String).data.isPrefixOf
      (("Invalid allowed IP or CIDR: " ++ bad).data) = true
  have hdata : ("Invalid allowed IP or CIDR: " ++ bad).data =
      ("Invalid allowed IP or CIDR" : String).data ++
        ((": " ++ bad) : String).data := by
    simp [String.data_append]
  rw [hdata]
  exact prefixOf_append_self _ _

/-- Concrete store for the C6 witness: one remote node, no shares. -/
def c6Store : ProviderStore :=
  { nodes := [⟨5, 20000, 20010, 1, 1⟩]
    shares := []
    runtimes := []
    chainPorts := []
    forwardPorts := []
    liveNodes := []
    userFlows := []
    nextReservationId := 1
    nextShareId := 1
    nextToken := 1
    now := 0 }

/-- Concrete request for the C6 witness, targeting the remote node. -/
def c6Req : CreatePeerShareRequest :=
  ⟨"remote-node-share", 5, 0, 0, 20000, 20010, "", ""⟩

/-- Witness for C6 at the repository test's scenario: a share-create
against a remote node is rejected verbatim and the store is unchanged. -/
theorem shareCreate_rejects_remote_node_witness :
    findNode c6Store c6Req.nodeId = some ⟨5, 20000, 20010, 1, 1⟩ ∧
      federationShareCreate c6Store c6Req =
        (c6Store, ⟨-1, "Only local nodes can be shared"⟩) :=
  ⟨by decide,
    shareCreate_rejects_remote_node c6Store c6Req ⟨5, 20000, 20010, 1, 1⟩
      (by decide) rfl⟩

/-- Concrete store for the C7 witness: one local node, no shares. -/
def c7Store : ProviderStore :=
  { nodes := [⟨6, 21000, 21010, 0, 1⟩]
    shares := []
    runtimes := []
    chainPorts := []
    forwardPorts := []
    liveNodes := []
    userFlows := []
    nextReservationId := 1
    nextShareId := 1
    nextToken := 1
    now := 0 }

/-- Concrete request for the C7 witness with `allowedIps="bad-ip-entry"`. -/
def c7Req : CreatePeerShareRequest :=
  ⟨"local-node-share", 6, 0, 0, 21000, 21010, "", "bad-ip-entry"⟩

/-- Witness for C7 at the repository test's scenario: `bad-ip-entry`
fails parsing, the handler answers code -1 with the invalid-IP message
and the store is unchanged. -/
theorem shareCreate_rejects_invalid_allowed_ips_witness :
    (allowedIpsList c7Req.allowedIps).find?
        (fun e => !isValidAllowedEntry e) = some "bad-ip-entry" ∧
      (federationShareCreate c7Store c7Req).1 = c7Store ∧
      (federationShareCreate c7Store c7Req).2.code = -1 ∧
      strContains (federationShareCreate c7Store c7Req).2.msg
          "Invalid allowed IP or CIDR" = true :=
  ⟨by decide,
    shareCreate_rejects_invalid_allowed_ips c7Store c7Req
      ⟨6, 21000, 21010, 0, 1⟩ "bad-ip-entry" (by decide) (by decide)
      (by decide)⟩

/-! ## C5: `authPeer` federation middleware -/

/-- The parts of an inbound federation request the middleware reads. -/
structure AuthPeerRequest where
  remoteAddr : String
  xff : Option String
deriving DecidableEq

/-- Strip the `:port` suffix (and any v6 brackets) from a
`RemoteAddr`. -/
def hostOfRemoteAddr (addr : String) : String :=
  match (splitOnChar ':' addr.data).reverse with
  | [] => addr
  | [_] => addr
  | _ :: restRev =>
      String.mk ((List.intercalate [':'] restRev.reverse).filter
        (fun c => !(c = '[' || c = ']')))

/-- Modelled from the spec: the effective client IP of the federation
auth middleware (body absent from the excerpt) — the `X-Forwarded-For`
head when `RemoteAddr` is in the configured trusted-proxy set, else
`RemoteAddr` (§4.C auth middleware; the trusted-proxy set itself is
configuration the excerpt does not show and is passed as a parameter). -/
def effectiveClientIP (trusted : List String) (req : AuthPeerRequest) :
    String :=
  let host := hostOfRemoteAddr req.remoteAddr
  if trusted.contains host then
    match req.xff with
    | some xff =>
        match (splitStr ',' xff).map trimStr with
        | [] => host
        | h :: _ => if h = "" then host else h
    | none => host
  else host

/-- Modelled from the spec: `authPeer`'s IP allow-list stage for a
request already authenticated by share token (body absent from the
excerpt; behaviour fixed by §4.C — "if the allow-list is non-empty and
the effective IP matches none of its exact-IP or CIDR entries, respond
403 IP_NOT_ALLOWED without invoking the handler" — and the
`TestAuthPeerAllowedIPs` matrix). The Bool records whether the wrapped
handler ran; `next` is the wrapped handler's response. -/
def authPeer (trusted : List String) (share : PeerShare)
    (req : AuthPeerRequest) (next : PeerResponse) : Bool × PeerResponse :=
  let entries := allowedIpsList share.allowedIps
  if entries.isEmpty then (true, next)
  else if entries.any
      (fun e => entryMatchesIP e (effectiveClientIP trusted req)) then
    (true, next)
  else (false, ⟨403, "IP not allowed"⟩)

/-- C5: with a non-empty allow-list, a request whose effective IP (XFF
head behind a trusted proxy, else RemoteAddr) matches no exact-IP or
CIDR entry is answered `code=403, msg="IP not allowed"` without running
the handler, while any match lets the handler run and produce its own
response. -/
theorem authPeer_ip_allowlist (trusted : List String) (share : PeerShare)
    (req : AuthPeerRequest) (next : PeerResponse)
    (hne : allowedIpsList share.allowedIps ≠ []) :
    ((allowedIpsList share.allowedIps).any
        (fun e => entryMatchesIP e (effectiveClientIP trusted req)) =
          false →
      authPeer trusted share req next = (false, ⟨403, "IP not allowed"⟩)) ∧
    ((allowedIpsList share.allowedIps).any
        (fun e => entryMatchesIP e (effectiveClientIP trusted req)) =
          true →
      authPeer trusted share req next = (true, next)) ∧
    (trusted.contains (hostOfRemoteAddr req.remoteAddr) = false →
      effectiveClientIP trusted req = hostOfRemoteAddr req.remoteAddr) ∧
    (∀ xff h rest,
      trusted.contains (hostOfRemoteAddr req.remoteAddr) = true →
      req.xff = some xff →
      (splitStr ',' xff).map trimStr = h :: rest →
      h ≠ "" →
      effectiveClientIP trusted req = h) := by
  have hemp : (allowedIpsList share.allowedIps).isEmpty = false := by
    cases h : allowedIpsList share.allowedIps with
    | nil => exact absurd h hne
    | cons a t => simp [h]
  refine ⟨?_, ?_, ?_, ?_⟩
  · intro h
    simp [authPeer, hemp, h]
  · intro h
    simp [authPeer, hemp, h]
  · intro h
    have h' : hostOfRemoteAddr req.remoteAddr ∉ trusted := by
      simpa using h
    simp [effectiveClientIP, h']
  · intro xff h rest htr hxff hsplit hh
    have htr' : hostOfRemoteAddr req.remoteAddr ∈ trusted := by
      simpa using htr
    simp [effectiveClientIP, htr', hxff, hsplit, hh]

/-- Witness for C5 at the repository test's denial row: allow-list
`203.0.113.10`, client `203.0.113.99:23456`, no trusted proxy — the
handler does not run and the response is 403 "IP not allowed". -/
theorem authPeer_ip_allowlist_witness :
    allowedIpsList "203.0.113.10" ≠ [] ∧
      authPeer [] ⟨1, "s", 1, "t", 0, 0, 0, 10000, 10010, 1, "",
          "203.0.113.10"⟩ ⟨"203.0.113.99:23456", none⟩ ⟨0, ""⟩ =
        (false, ⟨403, "IP not allowed"⟩) :=
  ⟨by decide,
    (authPeer_ip_allowlist [] ⟨1, "s", 1, "t", 0, 0, 0, 10000, 10010, 1,
        "", "203.0.113.10"⟩ ⟨"203.0.113.99:23456", none⟩ ⟨0, ""⟩
        (by decide)).1 (by decide)⟩

/-! ## C4: flow accounting for peer shares (`processFlowItem`) -/

/-- The user-tunnel service-name parse of the flow loop: at least three
`_`-separated parts, not `web_api`, first three parts integral. -/
def userTunnelKey (n : String) : Option (Int × Int × Int) :=
  match splitOnChar '_' n.data with
  | p0 :: p1 :: p2 :: _ =>
      if n = "web_api" then none
      else
        match parseIntChars p0, parseIntChars p1, parseIntChars p2 with
        | some f, some uid, some ut => some (f, uid, ut)
        | _, _, _ => none
  | _ => none

/-- Modelled from the spec: `processFlowItem` (body absent from the
excerpt; behaviour fixed by §4.G — credit user-tunnel counters for
`<forwardId>_<userId>_<userTunnelId>` names, else if a Peer Share
Runtime row has `service_name == n` add `u+d` to its share's
`current_flow` and, when `max_bandwidth>0 ∧ current_flow ≥
max_bandwidth`, set the runtime `status=0` and the share `is_active=0`;
anything else is dropped — and by
`TestProcessFlowItemTracksPeerShareFlowAndEnforcesLimit`). -/
def processFlowItem (s : ProviderStore) (item : FlowItem) :
    ProviderStore :=
  match userTunnelKey item.n with
  | some k =>
      { s with
        userFlows := s.userFlows ++ [⟨k.1, k.2.1, k.2.2, item.d, item.u⟩] }
  | none =>
      match s.runtimes.find? (fun r => r.serviceName == item.n) with
      | none => s
      | some rt =>
          match s.shares.find? (fun sh => sh.id == rt.shareId) with
          | none => s
          | some sh =>
              let newFlow := sh.currentFlow + item.u + item.d
              if 0 < sh.maxBandwidth ∧ sh.maxBandwidth ≤ newFlow then
                { s with
                  shares := s.shares.map fun x =>
                    if x.id == sh.id then
                      { x with currentFlow := newFlow, isActive := 0 }
                    else x
                  runtimes := s.runtimes.map fun r =>
                    if r.id == rt.id then { r with status := 0 } else r }
              else
                { s with
                  shares := s.shares.map fun x =>
                    if x.id == sh.id then { x with currentFlow := newFlow }
                    else x }

theorem find?_map_update {α κ : Type} [DecidableEq κ] (key : α → κ)
    (upd : α → α) (hk : ∀ x, key (upd x) = key x) (k : κ) :
    ∀ (l : List α) (a : α), l.find? (fun x => key x == k) = some a →
      (l.map fun x => if key x == k then upd x else x).find?
          (fun x => key x == k) = some (upd a) := by
  intro l
  induction l with
  | nil => intro a h; simp at h
  | cons b t ih =>
    intro a h
    cases hkb : (key b == k) with
    | true =>
      obtain rfl : b = a := by simpa [List.find?_cons, hkb] using h
      have hb' : (key (upd b) == k) = true := by
        rw [hk]; exact hkb
      have hfb : (if (key b == k) = true then upd b else b) = upd b :=
        if_pos hkb
      rw [List.map_cons, hfb, List.find?_cons, hb']
    | false =>
      have h' : List.find? (fun x => key x == k) t = some a := by
        simpa [List.find?_cons, hkb] using h
      have hfb : (if (key b == k) = true then upd b else b) = b :=
        if_neg (by simp [hkb])
      rw [List.map_cons, hfb, List.find?_cons, hkb]
      exact ih a h'

theorem find?_key_of_mem {α κ : Type} [DecidableEq κ] (key : α → κ) :
    ∀ (l : List α), (l.map key).Nodup → ∀ a ∈ l,
      l.find? (fun x => key x == key a) = some a := by
  intro l
  induction l with
  | nil => intro _ a ha; simp at ha
  | cons b t ih =>
    intro hnd a ha
    rw [List.map_cons, List.nodup_cons] at hnd
    rcases List.mem_cons.mp ha with rfl | hat
    · simp [List.find?_cons]
    · have hne : (key b == key a) = false := by
        cases hx : (key b == key a) with
        | false => rfl
        | true =>
          have : key b = key a := by simpa using hx
          exact absurd (this ▸ List.mem_map_of_mem key hat) hnd.1
      rw [List.find?_cons, hne]
      exact ih hnd.2 a hat

/-- C4: when an uploaded item's name matches a runtime row's
`service_name` (and is not a user-tunnel key), `u+d` is added to the
share's `current_flow`; if `max_bandwidth > 0` and the new flow reaches
it, the runtime row's status becomes 0 and the share's `is_active`
becomes 0, else `is_active` is untouched. -/
theorem processFlowItem_peer_share_accounting (s : ProviderStore)
    (item : FlowItem) (rt : RuntimeRow) (sh : PeerShare)
    (_hsid : (s.shares.map (fun x => x.id)).Nodup)
    (hrid : (s.runtimes.map (fun r => r.id)).Nodup)
    (hu : userTunnelKey item.n = none)
    (hr : s.runtimes.find? (fun r => r.serviceName == item.n) = some rt)
    (hs : s.shares.find? (fun x => x.id == rt.shareId) = some sh) :
    ((processFlowItem s item).shares.find? (fun x => x.id == sh.id) =
      some { sh with
        currentFlow := sh.currentFlow + item.u + item.d
        isActive :=
          if 0 < sh.maxBandwidth ∧
              sh.maxBandwidth ≤ sh.currentFlow + item.u + item.d then 0
          else sh.isActive }) ∧
    (0 < sh.maxBandwidth →
      sh.maxBandwidth ≤ sh.currentFlow + item.u + item.d →
      (processFlowItem s item).runtimes.find? (fun r => r.id == rt.id) =
        some { rt with status := 0 }) := by
  have hkey : rt.shareId = sh.id := by
    have h := List.find?_some hs
    have h2 : sh.id = rt.shareId := by simpa using h
    exact h2.symm
  have hs' : s.shares.find? (fun x => x.id == sh.id) = some sh := by
    rw [← hkey]; exact hs
  have hrt : s.runtimes.find? (fun r => r.id == rt.id) = some rt :=
    find?_key_of_mem (fun r => r.id) s.runtimes hrid rt
      (List.mem_of_find?_eq_some hr)
  unfold processFlowItem
  simp only [hu, hr, hs]
  by_cases hcond : 0 < sh.maxBandwidth ∧
      sh.maxBandwidth ≤ sh.currentFlow + item.u + item.d
  · constructor
    · rw [if_pos hcond, if_pos hcond]
      exact find?_map_update (fun x => x.id)
        (fun x => { x with
          currentFlow := sh.currentFlow + item.u + item.d
          isActive := 0 })
        (fun _ => rfl) sh.id s.shares sh hs'
    · intro _ _
      rw [if_pos hcond]
      exact find?_map_update (fun r => r.id)
        (fun r => { r with status := 0 }) (fun _ => rfl) rt.id
        s.runtimes rt hrt
  · constructor
    · rw [if_neg hcond, if_neg hcond]
      exact find?_map_update (fun x => x.id)
        (fun x => { x with
          currentFlow := sh.currentFlow + item.u + item.d })
        (fun _ => rfl) sh.id s.shares sh hs'
    · intro h1 h2
      exact absurd ⟨h1, h2⟩ hcond

/-- Concrete store for the C4 witness: the repository test's share
(`max_bandwidth=3000, current_flow=1000`) and active applied runtime row
17 with service name `fed_svc_17`. -/
def c4Store : ProviderStore :=
  { nodes := []
    shares := [⟨1, "flow-share", 1, "flow-share-token", 3000, 1000, 0,
      32000, 32010, 1, "", ""⟩]
    runtimes := [⟨17, 1, 1, 17, ⟨"", 0, 0⟩, 32001, "fed_svc_17", 1, 1⟩]
    chainPorts := []
    forwardPorts := []
    liveNodes := []
    userFlows := []
    nextReservationId := 18
    nextShareId := 2
    nextToken := 2
    now := 0 }

/-- The C4 witness runtime row. -/
def c4Runtime : RuntimeRow :=
  ⟨17, 1, 1, 17, ⟨"", 0, 0⟩, 32001, "fed_svc_17", 1, 1⟩

/-- The C4 witness share row. -/
def c4Share : PeerShare :=
  ⟨1, "flow-share", 1, "flow-share-token", 3000, 1000, 0, 32000, 32010,
    1, "", ""⟩

/-- Witness for C4 at the repository test's input: item
`{n:"fed_svc_17",u:1200,d:900}` pushes the share to 3100 ≥ 3000 and the
runtime row's status to 0. -/
theorem processFlowItem_peer_share_accounting_witness :
    userTunnelKey "fed_svc_17" = none ∧
      (processFlowItem c4Store ⟨"fed_svc_17", 1200, 900⟩).runtimes.find?
          (fun r => r.id == c4Runtime.id) =
        some { c4Runtime with status := 0 } :=
  ⟨by decide,
    (processFlowItem_peer_share_accounting c4Store
        ⟨"fed_svc_17", 1200, 900⟩ c4Runtime c4Share (by decide)
        (by decide) (by decide) (by decide) (by decide)).2 (by decide)
      (by decide)⟩

/-! ## C1: Provider port picking for peer shares -/

/-- The §3 port-uniqueness read: a (node, port) pair is occupied when a
`chain_tunnel` row, a `forward_port` row, or an active (status=1)
`peer_share_runtime` row holds it. -/
def portOccupied (s : ProviderStore) (nodeId port : Nat) : Bool :=
  s.chainPorts.any (fun cp => cp.1 == nodeId && cp.2 == port) ||
    s.forwardPorts.any (fun fp => fp.1 == nodeId && fp.2 == port) ||
    s.runtimes.any (fun r =>
      r.nodeId == nodeId && r.port == port && r.status == 1)

/-- Scan upward from `start` for the first port the predicate reports
free, over `fuel` candidates. -/
def scanPort (occ : Nat → Bool) (start : Nat) : Nat → Option Nat
  | 0 => none
  | fuel + 1 =>
      if occ start then scanPort occ (start + 1) fuel else some start

/-- Modelled from the spec: `pickPeerSharePort` (body absent from the
excerpt; behaviour fixed by §4.C Reserve — `requested_port=0` allocates
the lowest free port of the share range not present in any active
runtime row, chain-tunnel row or forward-port row on the node;
`requested_port≠0` must lie in the range and be free, else `PORT_BUSY` —
and by `TestPickPeerSharePortUsesRuntimeReservations`). -/
def pickPeerSharePort (s : ProviderStore) (share : PeerShare)
    (requested : Nat) : Option Nat :=
  if requested ≠ 0 then
    if share.portRangeStart ≤ requested ∧
        requested ≤ share.portRangeEnd ∧
        portOccupied s share.nodeId requested = false then
      some requested
    else none
  else
    scanPort (portOccupied s share.nodeId) share.portRangeStart
      (share.portRangeEnd + 1 - share.portRangeStart)

theorem scanPort_spec (occ : Nat → Bool) :
    ∀ (fuel start p : Nat), scanPort occ start fuel = some p →
      start ≤ p ∧ p < start + fuel ∧ occ p = false ∧
        ∀ q, start ≤ q → q < p → occ q = true := by
  intro fuel
  induction fuel with
  | zero => intro start p h; simp [scanPort] at h
  | succ n ih =>
    intro start p h
    unfold scanPort at h
    by_cases ho : occ start = true
    · rw [if_pos ho] at h
      obtain ⟨h1, h2, h3, h4⟩ := ih (start + 1) p h
      refine ⟨by omega, by omega, h3, ?_⟩
      intro q hq1 hq2
      by_cases hq : q = start
      · subst hq; exact ho
      · exact h4 q (by omega) hq2
    · rw [if_neg ho] at h
      obtain rfl : start = p := by simpa using h
      refine ⟨Nat.le_refl _, by omega, by simpa using ho, ?_⟩
      intro q hq1 hq2
      exact absurd hq2 (by omega)

/-- C1: with `requested_port=0` the picked port is the numerically
lowest port of the share range occupied by no chain-tunnel, forward-port
or active runtime row on the share's node; with `requested_port≠0` an
occupied port makes the operation fail. -/
theorem pickPeerSharePort_policy (s : ProviderStore) (share : PeerShare) :
    (∀ p, pickPeerSharePort s share 0 = some p →
      share.portRangeStart ≤ p ∧ p ≤ share.portRangeEnd ∧
        portOccupied s share.nodeId p = false ∧
        ∀ q, share.portRangeStart ≤ q → q ≤ share.portRangeEnd →
          portOccupied s share.nodeId q = false → p ≤ q) ∧
    (∀ r, r ≠ 0 → portOccupied s share.nodeId r = true →
      pickPeerSharePort s share r = none) := by
  constructor
  · intro p h
    unfold pickPeerSharePort at h
    rw [if_neg (fun hc => hc rfl)] at h
    obtain ⟨h1, h2, h3, h4⟩ := scanPort_spec _ _ _ _ h
    refine ⟨h1, by omega, h3, ?_⟩
    intro q hq1 hq2 hqf
    by_contra hpq
    exact absurd (h4 q hq1 (by omega)) (by simp [hqf])
  · intro r hr hocc
    unfold pickPeerSharePort
    rw [if_pos hr]
    exact if_neg (fun hc => by simp [hocc] at hc)

/-- Concrete store for the C1 witness: node 1 with chain-tunnel port
3000, forward port 3001 and an active runtime on 3002, as in
`TestPickPeerSharePortUsesRuntimeReservations`. -/
def c1Store : ProviderStore :=
  { nodes := []
    shares := []
    runtimes := [⟨1, 77, 1, 1, ⟨"", 0, 0⟩, 3002, "fed_svc_1", 1, 1⟩]
    chainPorts := [(1, 3000)]
    forwardPorts := [(1, 3001)]
    liveNodes := []
    userFlows := []
    nextReservationId := 2
    nextShareId := 1
    nextToken := 1
    now := 0 }

/-- The C1 witness share: node 1, range 3000-3004. -/
def c1Share : PeerShare :=
  ⟨77, "share", 1, "tok", 0, 0, 0, 3000, 3004, 1, "", ""⟩

/-- Witness for C1 at the repository test's input: requesting busy port
3001 fails, and auto allocation returns 3003 (the lowest free port). -/
theorem pickPeerSharePort_policy_witness :
    portOccupied c1Store c1Share.nodeId 3001 = true ∧
      pickPeerSharePort c1Store c1Share 3001 = none ∧
      pickPeerSharePort c1Store c1Share 0 = some 3003 :=
  ⟨by decide,
    (pickPeerSharePort_policy c1Store c1Share).2 3001 (by decide)
      (by decide),
    by decide⟩

/-! ## C2 and C3: the Reservation Coordinator (§4.F) across two panels -/

/-- A `chain_tunnel` row on the Consumer: the per-hop reservation
(`tunnel_id, chain_type, node_id, port`). -/
structure ChainRow where
  tunnelId : Nat
  chainType : Nat
  nodeId : Nat
  port : Nat
deriving DecidableEq

/-- A `federation_tunnel_binding` row on the Consumer. -/
structure Binding where
  tunnelId : Nat
  chainType : Nat
  remoteNodeId : Nat
  reservationId : Nat
  status : Nat
deriving DecidableEq

/-- The Consumer panel's store: its own node table (for local hops),
tunnel-plane rows, federation bindings and the tunnel id counter. -/
structure ConsumerStore where
  nodes : List NodeRec
  chainRows : List ChainRow
  forwardPorts : List (Nat × Nat)
  activeRuntimePorts : List (Nat × Nat)
  bindings : List Binding
  tunnels : List Nat
  nextTunnelId : Nat
deriving DecidableEq

/-- One hop of a tunnel-create spec: a local node hop, or a remote hop
through an imported shadow node backed by a Provider share. Chain type 1
is entry, 2 middle, 3 exit. -/
inductive HopSpec where
  | loc (nodeId chainType requestedPort : Nat)
  | rem (shadowNodeId shareId chainType requestedPort : Nat)
deriving DecidableEq

/-- Chain type of a hop. -/
def HopSpec.chainType : HopSpec → Nat
  | .loc _ ct _ => ct
  | .rem _ _ ct _ => ct

/-- Is the hop remote (backed by a peer share)? -/
def isRemoteHop : HopSpec → Bool
  | .rem _ _ _ _ => true
  | .loc _ _ _ => false

/-- Is the hop one the Coordinator reserves on the Provider — a remote
middle or exit hop? Entry hops carry no per-tunnel port and are never
reserved (the contract test creates a tunnel over a remote entry node
and leaves the entry share untouched). -/
def isReservedHop : HopSpec → Bool
  | .rem _ _ ct _ => ct != 1
  | .loc _ _ _ => false

/-- Provider share id a hop consumes (0 for local hops). -/
def hopShareId : HopSpec → Nat
  | .rem _ sid _ _ => sid
  | .loc _ _ _ => 0

/-- §3: a share rejects reservations when disabled, expired, or over
quota. -/
def shareUsable (sh : PeerShare) (now : Nat) : Bool :=
  sh.isActive == 1 &&
    (sh.expiryTime == 0 || decide (now < sh.expiryTime)) &&
    !(decide (0 < sh.maxBandwidth) &&
      decide (sh.maxBandwidth ≤ sh.currentFlow))

/-- Share lookup by id. -/
def findShare (p : ProviderStore) (shareId : Nat) : Option PeerShare :=
  p.shares.find? (fun sh => sh.id == shareId)

/-- The pending runtime row a fresh reservation inserts: fresh id used
both as row id and reservation id, the canonical `fed_svc_<runtimeId>`
service name, `applied=0, status=1`. -/
def mkRuntimeRow (p : ProviderStore) (shareId : Nat) (sh : PeerShare)
    (key : ResourceKey) (port : Nat) : RuntimeRow :=
  { id := p.nextReservationId
    shareId := shareId
    nodeId := sh.nodeId
    reservationId := p.nextReservationId
    resourceKey := key
    port := port
    serviceName := "fed_svc_" ++ toString p.nextReservationId
    applied := 0
    status := 1 }

/-- Modelled from the spec: the Provider's `POST reserve` (§4.C —
fail on unusable share or offline node; idempotent on
`(share_id, resource_key)`; else pick a port per `pickPeerSharePort` and
insert a pending runtime row with a fresh reservation id and the
canonical `fed_svc_<runtimeId>` service name). Returns the new store,
the reservation id and the port. -/
def federationReserve (p : ProviderStore) (shareId : Nat)
    (key : ResourceKey) (requested : Nat) :
    Option (ProviderStore × Nat × Nat) :=
  match findShare p shareId with
  | none => none
  | some sh =>
      if shareUsable sh p.now = false then none
      else if p.liveNodes.contains sh.nodeId = false then none
      else
        match p.runtimes.find? (fun r =>
            r.shareId == shareId && r.resourceKey == key &&
              r.status == 1) with
        | some r0 => some (p, r0.reservationId, r0.port)
        | none =>
            match pickPeerSharePort p sh requested with
            | none => none
            | some port =>
                some
                  ({ p with
                      runtimes := p.runtimes ++
                        [mkRuntimeRow p shareId sh key port]
                      nextReservationId := p.nextReservationId + 1 },
                    p.nextReservationId, port)

/-- Modelled from the spec: the Provider's `POST commit` (§4.C — flip
`applied=0→1` after confirming the node session is live, else
`NODE_OFFLINE`). -/
def federationCommit (p : ProviderStore) (rid : Nat) :
    Option ProviderStore :=
  match p.runtimes.find? (fun r => r.reservationId == rid) with
  | none => none
  | some r =>
      if p.liveNodes.contains r.nodeId then
        some
          { p with
            runtimes := p.runtimes.map fun x =>
              if x.reservationId == rid then { x with applied := 1 }
              else x }
      else none

/-- Modelled from the spec: the Provider's `POST release` (§4.C — set
`status=0`, idempotent, never fails for business reasons). -/
def federationRelease (p : ProviderStore) (rid : Nat) : ProviderStore :=
  { p with
    runtimes := p.runtimes.map fun x =>
      if x.reservationId == rid then { x with status := 0 } else x }

/-- The §3 port-uniqueness read on the Consumer for local hops,
extended with the ports already taken by earlier hops of the same
create. -/
def consumerPortOccupied (c : ConsumerStore) (taken : List (Nat × Nat))
    (nodeId port : Nat) : Bool :=
  c.chainRows.any (fun r => r.nodeId == nodeId && r.port == port) ||
    c.forwardPorts.any (fun fp => fp.1 == nodeId && fp.2 == port) ||
    c.activeRuntimePorts.any (fun rp =>
      rp.1 == nodeId && rp.2 == port) ||
    taken.any (fun t => t.1 == nodeId && t.2 == port)

/-- Modelled from the spec: local port picking (§4.F step 2 — a
requested port is verified free, else the node range is scanned for the
lowest free port). -/
def pickLocalPort (c : ConsumerStore) (taken : List (Nat × Nat))
    (nodeId requested : Nat) : Option Nat :=
  match c.nodes.find? (fun nd => nd.id == nodeId) with
  | none => none
  | some nd =>
      if requested ≠ 0 then
        if consumerPortOccupied c taken nodeId requested = false then
          some requested
        else none
      else
        scanPort (consumerPortOccupied c taken nodeId)
          nd.portRangeStart (nd.portRangeEnd + 1 - nd.portRangeStart)

/-- Modelled from the spec: the local-picking phase over the
position-indexed hop list, threading the ports taken so far. Yields
`(chainType, nodeId, port)` per ported local hop. -/
def pickLocals (c : ConsumerStore) :
    List (Nat × HopSpec) → List (Nat × Nat) →
      Option (List (Nat × Nat × Nat))
  | [], _ => some []
  | (_, .rem _ _ _ _) :: rest, taken => pickLocals c rest taken
  | (_, .loc nodeId ct req) :: rest, taken =>
      if ct == 1 then pickLocals c rest taken
      else
        match pickLocalPort c taken nodeId req with
        | none => none
        | some port =>
            (pickLocals c rest ((nodeId, port) :: taken)).map
              (fun l => (ct, nodeId, port) :: l)

/-- What the Coordinator records about one successful remote
reservation. -/
structure ReservedInfo where
  position : Nat
  chainType : Nat
  shadowNodeId : Nat
  shareId : Nat
  reservationId : Nat
  port : Nat
deriving DecidableEq

/-- Modelled from the spec: §4.F step 3 — for each remote (reserved)
hop in order, derive the stable resource key from
`(tunnelName, chainType, position)` and call the Provider's reserve;
abort on the first failure. -/
def reserveHops (name : String) :
    ProviderStore → List (Nat × HopSpec) →
      Option (ProviderStore × List ReservedInfo)
  | p, [] => some (p, [])
  | p, (_, .loc _ _ _) :: rest => reserveHops name p rest
  | p, (i, .rem shadow shareId ct req) :: rest =>
      if ct == 1 then reserveHops name p rest
      else
        match federationReserve p shareId ⟨name, ct, i⟩ req with
        | none => none
        | some pr =>
            (reserveHops name pr.1 rest).map
              (fun qr =>
                (qr.1,
                  ⟨i, ct, shadow, shareId, pr.2.1, pr.2.2⟩ :: qr.2))

/-- Modelled from the spec: §4.F step 4 — commit every reservation;
abort on the first failure. -/
def commitAll : ProviderStore → List ReservedInfo →
    Option ProviderStore
  | p, [] => some p
  | p, r :: rest =>
      match federationCommit p r.reservationId with
      | none => none
      | some q => commitAll q rest

/-- Modelled from the spec: `CreateTunnel` (§4.F — pick local ports,
reserve then commit remote hops, then write the tunnel, chain rows and
status-1 bindings in one transaction; any failure yields no state
change here, the compensating releases being the Federation Client's
business). Returns the two stores and the new tunnel id. -/
def createTunnel (p : ProviderStore) (c : ConsumerStore) (name : String)
    (hops : List HopSpec) : Option (ProviderStore × ConsumerStore × Nat) :=
  match pickLocals c hops.enum [] with
  | none => none
  | some localPicks =>
      match reserveHops name p hops.enum with
      | none => none
      | some pr =>
          match commitAll pr.1 pr.2 with
          | none => none
          | some p2 =>
              let tid := c.nextTunnelId
              some (p2,
                { c with
                  chainRows := c.chainRows ++
                    localPicks.map (fun q => ⟨tid, q.1, q.2.1, q.2.2⟩) ++
                    pr.2.map (fun r =>
                      ⟨tid, r.chainType, r.shadowNodeId, r.port⟩)
                  bindings := c.bindings ++
                    pr.2.map (fun r =>
                      ⟨tid, r.chainType, r.shadowNodeId,
                        r.reservationId, 1⟩)
                  tunnels := c.tunnels ++ [tid]
                  nextTunnelId := tid + 1 },
                tid)

/-- Modelled from the spec: `DeleteTunnel` (§4.F — read the bindings,
delete them with the chain rows and the tunnel row in one transaction,
then release every binding's reservation on the Provider). -/
def deleteTunnel (p : ProviderStore) (c : ConsumerStore) (tid : Nat) :
    ProviderStore × ConsumerStore :=
  let bs := c.bindings.filter (fun b => b.tunnelId == tid)
  (bs.foldl (fun acc b => federationRelease acc b.reservationId) p,
    { c with
      bindings := c.bindings.filter (fun b => b.tunnelId != tid)
      chainRows := c.chainRows.filter (fun r => r.tunnelId != tid)
      tunnels := c.tunnels.filter (fun t => t != tid) })

/-- The ports a tunnel holds on the Consumer (its chain rows, in
creation order). -/
def portsOfTunnel (c : ConsumerStore) (tid : Nat) : List Nat :=
  (c.chainRows.filter (fun r => r.tunnelId == tid)).map
    (fun r => r.port)

/-- The dual-panel contract scenario's Provider: three shares on nodes
11/12/13 with ranges 43000-43010, 44000-44010, 45000-45010; live
sessions for the middle and exit nodes only. -/
def dualProvider : ProviderStore :=
  { nodes := []
    shares := [⟨1, "entry-share", 11, "tokE", 0, 0, 0, 43000, 43010, 1,
        "", ""⟩,
      ⟨2, "middle-share", 12, "tokM", 0, 0, 0, 44000, 44010, 1, "", ""⟩,
      ⟨3, "exit-share", 13, "tokX", 0, 0, 0, 45000, 45010, 1, "", ""⟩]
    runtimes := []
    chainPorts := []
    forwardPorts := []
    liveNodes := [12, 13]
    userFlows := []
    nextReservationId := 1
    nextShareId := 4
    nextToken := 4
    now := 0 }

/-- The dual-panel contract scenario's Consumer: empty store. -/
def dualConsumer : ConsumerStore :=
  { nodes := []
    chainRows := []
    forwardPorts := []
    activeRuntimePorts := []
    bindings := []
    tunnels := []
    nextTunnelId := 1 }

/-- The dual-panel hop list: remote entry, remote middle, remote exit,
all auto-port, through shadow nodes 101/102/103. -/
def dualHops : List HopSpec :=
  [.rem 101 1 1 0, .rem 102 2 2 0, .rem 103 3 3 0]

/-- C2 counterexample: in the dual-panel scenario the tunnel is created
with three remote hops, yet only two status-1 bindings exist — the
remote entry hop is never reserved (its share stays untouched), so "one
binding per remote hop" fails as stated. -/
theorem tunnel_create_bindings_counterexample :
    dualHops.countP isRemoteHop = 3 ∧
      (createTunnel dualProvider dualConsumer "dual-1" dualHops).map
          (fun r => (r.2.1.bindings.filter
            (fun b => b.tunnelId == r.2.2 && b.status == 1)).length) =
        some 2 := by
  constructor
  · decide
  · decide

/-- Equality of all Provider-store components the tunnel lifecycle never
writes. -/
structure StaticEqP (q p : ProviderStore) : Prop where
  shares_eq : q.shares = p.shares
  chain_eq : q.chainPorts = p.chainPorts
  forward_eq : q.forwardPorts = p.forwardPorts
  live_eq : q.liveNodes = p.liveNodes
  now_eq : q.now = p.now
  nodes_eq : q.nodes = p.nodes
  flows_eq : q.userFlows = p.userFlows

theorem StaticEqP.refl (p : ProviderStore) : StaticEqP p p :=
  ⟨rfl, rfl, rfl, rfl, rfl, rfl, rfl⟩

theorem StaticEqP.trans {r q p : ProviderStore} (h1 : StaticEqP r q)
    (h2 : StaticEqP q p) : StaticEqP r p :=
  ⟨h1.shares_eq.trans h2.shares_eq, h1.chain_eq.trans h2.chain_eq,
    h1.forward_eq.trans h2.forward_eq, h1.live_eq.trans h2.live_eq,
    h1.now_eq.trans h2.now_eq, h1.nodes_eq.trans h2.nodes_eq,
    h1.flows_eq.trans h2.flows_eq⟩

theorem federationReserve_shape {p : ProviderStore} {shareId : Nat}
    {key : ResourceKey} {req : Nat} {p' : ProviderStore} {rid port : Nat}
    (h : federationReserve p shareId key req = some (p', rid, port)) :
    (p' = p ∧ ∃ r0, r0 ∈ p.runtimes ∧ r0.shareId = shareId ∧
      r0.resourceKey = key ∧ r0.status = 1 ∧ r0.reservationId = rid ∧
      r0.port = port) ∨
    (∃ sh, findShare p shareId = some sh ∧
      shareUsable sh p.now = true ∧
      p.liveNodes.contains sh.nodeId = true ∧
      p.runtimes.find? (fun r => r.shareId == shareId &&
        r.resourceKey == key && r.status == 1) = none ∧
      pickPeerSharePort p sh req = some port ∧
      rid = p.nextReservationId ∧
      p' = { p with
        runtimes := p.runtimes ++ [mkRuntimeRow p shareId sh key port]
        nextReservationId := p.nextReservationId + 1 }) := by
  unfold federationReserve at h
  split at h
  · exact absurd h (by simp)
  next sh hfs =>
    split at h
    · exact absurd h (by simp)
    next husable =>
      split at h
      · exact absurd h (by simp)
      next hlive =>
        split at h
        next r0 hr0 =>
          left
          obtain ⟨hp, hrid, hport⟩ : p = p' ∧ r0.reservationId = rid ∧
              r0.port = port := by
            simpa using h
          have hpred := List.find?_some hr0
          simp only [Bool.and_eq_true, beq_iff_eq] at hpred
          exact ⟨hp.symm, r0, List.mem_of_find?_eq_some hr0,
            hpred.1.1, hpred.1.2, hpred.2, hrid, hport⟩
        next hr0 =>
          split at h
          · exact absurd h (by simp)
          next port0 hpick =>
            right
            obtain ⟨hp, hrid, hport⟩ : _ ∧ p.nextReservationId = rid ∧
                port0 = port := by
              simpa using h
            subst hport
            refine ⟨sh, hfs, ?_, ?_, hr0, hpick, hrid.symm, hp.symm⟩
            · simpa using husable
            · simpa using hlive

/-- What a successful reserve pass over the hop list `l` guarantees,
relative to the starting Provider state `p`. -/
structure ReserveSound (l : List (Nat × HopSpec)) (p p1 : ProviderStore)
    (res : List ReservedInfo) : Prop where
  static_eq : StaticEqP p1 p
  next_mono : p.nextReservationId ≤ p1.nextReservationId
  rows_ext : ∃ newRows, p1.runtimes = p.runtimes ++ newRows ∧
      ∀ row ∈ newRows, row.status = 1 ∧
        p.nextReservationId ≤ row.reservationId ∧
        ∃ e ∈ l, isReservedHop e.2 = true ∧ hopShareId e.2 = row.shareId
  rid_nodup : (p1.runtimes.map (fun r => r.reservationId)).Nodup
  rid_lt : ∀ r ∈ p1.runtimes, r.reservationId < p1.nextReservationId
  res_len : res.length = l.countP (fun e => isReservedHop e.2)
  res_rows : ∀ ri ∈ res, ∃ row ∈ p1.runtimes,
      row.reservationId = ri.reservationId ∧ row.status = 1 ∧
      row.shareId = ri.shareId
  res_hops : ∀ ri ∈ res, ∃ e ∈ l, isReservedHop e.2 = true ∧
      hopShareId e.2 = ri.shareId

theorem reserveHops_sound (name : String) :
    ∀ (l : List (Nat × HopSpec)) (p p1 : ProviderStore)
      (res : List ReservedInfo),
      (p.runtimes.map (fun r => r.reservationId)).Nodup →
      (∀ r ∈ p.runtimes, r.reservationId < p.nextReservationId) →
      reserveHops name p l = some (p1, res) →
      ReserveSound l p p1 res := by
  intro l
  induction l with
  | nil =>
    intro p p1 res hnd hlt h
    have h' : (p, ([] : List ReservedInfo)) = (p1, res) :=
      Option.some.inj h
    cases h'
    exact
      { static_eq := StaticEqP.refl p
        next_mono := Nat.le_refl _
        rows_ext := ⟨[], (List.append_nil _).symm, by simp⟩
        rid_nodup := hnd
        rid_lt := hlt
        res_len := by simp
        res_rows := by simp
        res_hops := by simp }
  | cons e rest ih =>
    obtain ⟨i, hsp⟩ := e
    intro p p1 res hnd hlt h
    have liftSound :
        reserveHops name p rest = some (p1, res) →
        isReservedHop hsp = false → ReserveSound ((i, hsp) :: rest) p p1 res := by
      intro h' hskip
      have S := ih p p1 res hnd hlt h'
      refine
        { static_eq := S.static_eq
          next_mono := S.next_mono
          rows_ext := ?_
          rid_nodup := S.rid_nodup
          rid_lt := S.rid_lt
          res_len := ?_
          res_rows := S.res_rows
          res_hops := ?_ }
      · obtain ⟨newRows, heq, hprops⟩ := S.rows_ext
        refine ⟨newRows, heq, ?_⟩
        intro row hrow
        obtain ⟨h1, h2, e', he', h3, h4⟩ := hprops row hrow
        exact ⟨h1, h2, e', List.mem_cons_of_mem _ he', h3, h4⟩
      · rw [S.res_len, List.countP_cons]
        simp [hskip]
      · intro ri hri
        obtain ⟨e', he', h3, h4⟩ := S.res_hops ri hri
        exact ⟨e', List.mem_cons_of_mem _ he', h3, h4⟩
    cases hsp with
    | loc nodeId ct req =>
      exact liftSound h rfl
    | rem shadow shareId ct req =>
      by_cases hct : (ct == 1) = true
      · have h' : reserveHops name p rest = some (p1, res) := by
          unfold reserveHops at h
          rwa [if_pos hct] at h
        have hskip : isReservedHop (.rem shadow shareId ct req) = false := by
          simp only [isReservedHop, bne]
          simp [hct]
        exact liftSound h' hskip
      · have hreserved : isReservedHop (.rem shadow shareId ct req) = true := by
          simp only [isReservedHop, bne]
          simp [hct]
        unfold reserveHops at h
        rw [if_neg hct] at h
        cases hres : federationReserve p shareId ⟨name, ct, i⟩ req with
        | none => rw [hres] at h; cases h
        | some pr =>
          rw [hres] at h
          simp only [Option.map_eq_some'] at h
          obtain ⟨qr, hq, hqe⟩ := h
          obtain ⟨q1, qres⟩ := qr
          obtain ⟨hp1, hresl⟩ : q1 = p1 ∧
              (⟨i, ct, shadow, shareId, pr.2.1, pr.2.2⟩ : ReservedInfo) ::
                qres = res := by
            simpa using hqe
          rw [hp1] at hq
          rw [← hresl]
          rcases federationReserve_shape
              (show federationReserve p shareId ⟨name, ct, i⟩ req =
                some (pr.1, pr.2.1, pr.2.2) from by rw [hres]) with
            ⟨hpp, r0, hr0mem, hr0sid, _hr0key, hr0st, hr0rid, hr0port⟩ |
            ⟨sh, _hfs, _hus, _hlv, _hdna, _hpick, hrid, hp'⟩
          · -- idempotent hit: state unchanged, existing row returned
            have S := ih p p1 qres hnd hlt (by rwa [hpp] at hq)
            obtain ⟨newRows, hrows, hprops⟩ := S.rows_ext
            refine
              { static_eq := S.static_eq
                next_mono := S.next_mono
                rows_ext := ⟨newRows, hrows, ?_⟩
                rid_nodup := S.rid_nodup
                rid_lt := S.rid_lt
                res_len := ?_
                res_rows := ?_
                res_hops := ?_ }
            · intro row hrow
              obtain ⟨h1, h2, e', he', h3, h4⟩ := hprops row hrow
              exact ⟨h1, h2, e', List.mem_cons_of_mem _ he', h3, h4⟩
            · rw [List.countP_cons]
              simp [hreserved, S.res_len]
            · intro ri hri
              rcases List.mem_cons.mp hri with rfl | hri'
              · refine ⟨r0, ?_, hr0rid, hr0st, hr0sid⟩
                rw [hrows]
                exact List.mem_append_left _ hr0mem
              · exact S.res_rows ri hri'
            · intro ri hri
              rcases List.mem_cons.mp hri with rfl | hri'
              · exact ⟨(i, .rem shadow shareId ct req),
                  List.mem_cons_self _ _, hreserved, rfl⟩
              · obtain ⟨e', he', h3, h4⟩ := S.res_hops ri hri'
                exact ⟨e', List.mem_cons_of_mem _ he', h3, h4⟩
          · -- fresh reservation: one row appended
            set row := mkRuntimeRow p shareId sh ⟨name, ct, i⟩ pr.2.2 with hrowdef
            have hnd' : ((pr.1.runtimes).map
                (fun r => r.reservationId)).Nodup := by
              rw [hp']
              show ((p.runtimes ++ [row]).map
                (fun r => r.reservationId)).Nodup
              rw [List.map_append, List.nodup_append]
              refine ⟨hnd, by simp, ?_⟩
              intro a ha hb
              simp only [List.mem_map] at ha
              obtain ⟨r, hr, hra⟩ := ha
              have hlt2 := hlt r hr
              have hb' : a = p.nextReservationId := by
                simpa [hrowdef, mkRuntimeRow] using hb
              omega
            have hlt' : ∀ r ∈ pr.1.runtimes,
                r.reservationId < pr.1.nextReservationId := by
              rw [hp']
              intro r hr
              replace hr : r ∈ p.runtimes ++ [row] := hr
              show r.reservationId < p.nextReservationId + 1
              rcases List.mem_append.mp hr with hr' | hr'
              · have := hlt r hr'
                omega
              · simp only [List.mem_singleton] at hr'
                subst hr'
                show p.nextReservationId < p.nextReservationId + 1
                omega
            have S := ih pr.1 p1 qres hnd' hlt' hq
            have hstat : StaticEqP pr.1 p := by
              rw [hp']
              exact ⟨rfl, rfl, rfl, rfl, rfl, rfl, rfl⟩
            obtain ⟨newRows, hrows, hprops⟩ := S.rows_ext
            refine
              { static_eq := S.static_eq.trans hstat
                next_mono := ?_
                rows_ext := ⟨row :: newRows, ?_, ?_⟩
                rid_nodup := S.rid_nodup
                rid_lt := S.rid_lt
                res_len := ?_
                res_rows := ?_
                res_hops := ?_ }
            · have h1 := S.next_mono
              rw [hp'] at h1
              have h2 : p.nextReservationId + 1 ≤ p1.nextReservationId :=
                h1
              omega
            · rw [hrows, hp']
              simp
            · intro r hr
              rcases List.mem_cons.mp hr with rfl | hr'
              · refine ⟨rfl, Nat.le_refl _, (i, .rem shadow shareId ct req),
                  List.mem_cons_self _ _, hreserved, rfl⟩
              · obtain ⟨h1, h2, e', he', h3, h4⟩ := hprops r hr'
                refine ⟨h1, ?_, e', List.mem_cons_of_mem _ he', h3, h4⟩
                have : pr.1.nextReservationId = p.nextReservationId + 1 := by
                  rw [hp']
                omega
            · rw [List.countP_cons]
              simp [hreserved, S.res_len]
            · intro ri hri
              rcases List.mem_cons.mp hri with rfl | hri'
              · refine ⟨row, ?_, ?_, rfl, rfl⟩
                · rw [hrows, hp']
                  simp
                · show p.nextReservationId = pr.2.1
                  exact hrid.symm
              · exact S.res_rows ri hri'
            · intro ri hri
              rcases List.mem_cons.mp hri with rfl | hri'
              · exact ⟨(i, .rem shadow shareId ct req),
                  List.mem_cons_self _ _, hreserved, rfl⟩
              · obtain ⟨e', he', h3, h4⟩ := S.res_hops ri hri'
                exact ⟨e', List.mem_cons_of_mem _ he', h3, h4⟩

theorem federationCommit_shape {p q : ProviderStore} {rid : Nat}
    (h : federationCommit p rid = some q) :
    q = { p with
      runtimes := p.runtimes.map fun x =>
        if x.reservationId == rid then { x with applied := 1 }
        else x } := by
  unfold federationCommit at h
  split at h
  · cases h
  next r hr =>
    split at h
    · exact (Option.some.inj h).symm
    · cases h

theorem commitAll_shape :
    ∀ (res : List ReservedInfo) (p p2 : ProviderStore),
      commitAll p res = some p2 →
      StaticEqP p2 p ∧ p2.nextReservationId = p.nextReservationId ∧
        p2.runtimes = p.runtimes.map (fun x =>
          if res.any (fun ri => x.reservationId == ri.reservationId) then
            { x with applied := 1 }
          else x) := by
  intro res
  induction res with
  | nil =>
    intro p p2 h
    obtain rfl : p = p2 := Option.some.inj h
    refine ⟨StaticEqP.refl p, rfl, ?_⟩
    simp
  | cons r rest ih =>
    intro p p2 h
    unfold commitAll at h
    split at h
    · cases h
    next q hc =>
      have hq := federationCommit_shape hc
      obtain ⟨hst, hnext, hruns⟩ := ih q p2 h
      subst hq
      refine ⟨hst.trans ⟨rfl, rfl, rfl, rfl, rfl, rfl, rfl⟩, hnext, ?_⟩
      rw [hruns]
      show (p.runtimes.map fun x =>
          if x.reservationId == r.reservationId then { x with applied := 1 }
          else x).map _ = _
      rw [List.map_map]
      apply List.map_congr_left
      intro x _
      show (fun y => if rest.any
            (fun ri => y.reservationId == ri.reservationId) then
          { y with applied := 1 } else y)
          (if x.reservationId == r.reservationId then
            { x with applied := 1 } else x) =
        if (r :: rest).any
            (fun ri => x.reservationId == ri.reservationId) then
          { x with applied := 1 }
        else x
      cases hxr : (x.reservationId == r.reservationId) with
      | true =>
        cases hrest : (rest.any
            fun ri => x.reservationId == ri.reservationId) with
        | true => simp [hxr, hrest]
        | false => simp [hxr, hrest]
      | false => simp [hxr]

theorem nodup_key_inj {α κ : Type} (key : α → κ) :
    ∀ (l : List α), (l.map key).Nodup → ∀ x ∈ l, ∀ y ∈ l,
      key x = key y → x = y := by
  intro l
  induction l with
  | nil => intro _ x hx; simp at hx
  | cons b t ih =>
    intro hnd x hx y hy hk
    rw [List.map_cons, List.nodup_cons] at hnd
    rcases List.mem_cons.mp hx with rfl | hx' <;>
      rcases List.mem_cons.mp hy with rfl | hy'
    · rfl
    · exact absurd (hk ▸ List.mem_map_of_mem key hy') hnd.1
    · exact absurd (hk ▸ List.mem_map_of_mem key hx') hnd.1
    · exact ih hnd.2 x hx' y hy' hk

theorem filter_map_faithful {α : Type} (pred : α → Bool) (f : α → α) :
    ∀ l : List α,
      (∀ x ∈ l, pred (f x) = pred x ∧ (pred x = true → f x = x)) →
      (l.map f).filter pred = l.filter pred := by
  intro l
  induction l with
  | nil => intro _; rfl
  | cons b t ih =>
    intro h
    obtain ⟨hfb, hid⟩ := h b (List.mem_cons_self _ _)
    have ht := ih (fun x hx => h x (List.mem_cons_of_mem _ hx))
    rw [List.map_cons]
    cases hpb : pred b with
    | true =>
      rw [List.filter_cons_of_pos (by rw [hfb]; exact hpb),
        List.filter_cons_of_pos hpb, hid hpb, ht]
    | false =>
      rw [List.filter_cons_of_neg (by simp [hfb, hpb]),
        List.filter_cons_of_neg (by simp [hpb]), ht]

theorem countP_eq_one_of_key {α : Type} (key : α → Nat)
    (pred : α → Bool) :
    ∀ (l : List α), (l.map key).Nodup → ∀ a ∈ l, pred a = true →
      (∀ x, pred x = true → key x = key a) → l.countP pred = 1 := by
  intro l
  induction l with
  | nil => intro _ a ha; simp at ha
  | cons b t ih =>
    intro hnd a ha hpa himp
    rw [List.map_cons, List.nodup_cons] at hnd
    rcases List.mem_cons.mp ha with rfl | ha'
    · rw [List.countP_cons, if_pos hpa]
      have ht : t.countP pred = 0 := by
        apply List.countP_eq_zero.mpr
        intro x hx hpx
        exact hnd.1 (himp x hpx ▸ List.mem_map_of_mem key hx)
      omega
    · have hpb : ¬ pred b = true := by
        intro hpb
        exact hnd.1 (himp b hpb ▸ List.mem_map_of_mem key ha')
      rw [List.countP_cons, if_neg hpb]
      have := ih hnd.2 a ha' hpa himp
      omega

theorem map_rid_of_commitMap (res : List ReservedInfo)
    (l : List RuntimeRow) :
    ((l.map fun x =>
        if res.any (fun ri => x.reservationId == ri.reservationId) then
          { x with applied := 1 }
        else x).map (fun r => r.reservationId)) =
      l.map (fun r => r.reservationId) := by
  rw [List.map_map]
  apply List.map_congr_left
  intro x _
  show ((if res.any (fun ri => x.reservationId == ri.reservationId) then
      { x with applied := 1 } else x).reservationId) = x.reservationId
  split <;> rfl

/-- C2 (amended): for a tunnel successfully created, exactly one
status-1 binding exists per reserved hop — a remote middle or exit hop;
remote entry hops get none — each corresponding to exactly one
Provider runtime row with `applied=1, status=1`, and the runtime rows of
every share not consumed by a reserved hop are exactly as before the
call. -/
theorem tunnel_create_binding_invariant (p : ProviderStore)
    (c : ConsumerStore) (name : String) (hops : List HopSpec)
    (p' : ProviderStore) (c' : ConsumerStore) (tid : Nat)
    (hnd : (p.runtimes.map (fun r => r.reservationId)).Nodup)
    (hlt : ∀ r ∈ p.runtimes, r.reservationId < p.nextReservationId)
    (hcb : ∀ b ∈ c.bindings, b.tunnelId < c.nextTunnelId)
    (h : createTunnel p c name hops = some (p', c', tid)) :
    ((c'.bindings.filter
        (fun b => b.tunnelId == tid && b.status == 1)).length =
      (hops.filter isReservedHop).length) ∧
    (∀ b ∈ c'.bindings, b.tunnelId = tid →
      p'.runtimes.countP (fun r =>
        r.reservationId == b.reservationId && r.applied == 1 &&
          r.status == 1) = 1) ∧
    (∀ shId : Nat,
      hops.filter
          (fun hsp => isReservedHop hsp && hopShareId hsp == shId) =
        [] →
      p'.runtimes.filter (fun r => r.shareId == shId) =
        p.runtimes.filter (fun r => r.shareId == shId)) := by
  unfold createTunnel at h
  split at h
  · cases h
  next lp hlp =>
  split at h
  · cases h
  next pr hrh =>
  split at h
  · cases h
  next p2 hca =>
  obtain ⟨p1, reserved⟩ := pr
  cases Option.some.inj h
  have S : ReserveSound hops.enum p p1 reserved :=
    reserveHops_sound name hops.enum p p1 reserved hnd hlt hrh
  obtain ⟨Cstat, Cnext, Cruns⟩ := commitAll_shape reserved p1 p' hca
  have hlen : reserved.length = (hops.filter isReservedHop).length := by
    rw [S.res_len, ← List.countP_eq_length_filter]
    have hmapped : (hops.enum.map Prod.snd).countP isReservedHop =
        hops.enum.countP (fun e => isReservedHop e.2) := by
      rw [List.countP_map]
      rfl
    rw [← hmapped, List.enum_map_snd]
  refine ⟨?_, ?_, ?_⟩
  · show ((c.bindings ++ reserved.map fun r =>
        (⟨c.nextTunnelId, r.chainType, r.shadowNodeId, r.reservationId,
          1⟩ : Binding)).filter
        (fun b => b.tunnelId == c.nextTunnelId && b.status == 1)).length =
      (hops.filter isReservedHop).length
    rw [List.filter_append]
    have hold : c.bindings.filter
        (fun b => b.tunnelId == c.nextTunnelId && b.status == 1) = [] := by
      apply List.filter_eq_nil_iff.mpr
      intro b hb
      have := hcb b hb
      simp only [Bool.and_eq_true, beq_iff_eq]
      intro hc
      omega
    have hnew : (reserved.map fun r =>
        (⟨c.nextTunnelId, r.chainType, r.shadowNodeId, r.reservationId,
          1⟩ : Binding)).filter
        (fun b => b.tunnelId == c.nextTunnelId && b.status == 1) =
        reserved.map fun r =>
          (⟨c.nextTunnelId, r.chainType, r.shadowNodeId, r.reservationId,
            1⟩ : Binding) := by
      apply List.filter_eq_self.mpr
      intro b hb
      simp only [List.mem_map] at hb
      obtain ⟨ri, _, rfl⟩ := hb
      simp
    rw [hold, hnew, List.nil_append, List.length_map, hlen]
  · intro b hb hbt
    replace hb : b ∈ c.bindings ++ reserved.map fun r =>
        (⟨c.nextTunnelId, r.chainType, r.shadowNodeId, r.reservationId,
          1⟩ : Binding) := hb
    rcases List.mem_append.mp hb with hb' | hb'
    · have := hcb b hb'
      have hbt' : b.tunnelId = c.nextTunnelId := hbt
      omega
    · simp only [List.mem_map] at hb'
      obtain ⟨ri, hri, rfl⟩ := hb'
      obtain ⟨row, hrowmem, hrowrid, hrowst, _hrowsid⟩ :=
        S.res_rows ri hri
      have hcond : (reserved.any
          (fun x => row.reservationId == x.reservationId)) = true := by
        apply List.any_eq_true.mpr
        exact ⟨ri, hri, by simp [hrowrid]⟩
      have hfrow : (fun x =>
          if reserved.any (fun y => x.reservationId == y.reservationId)
          then ({ x with applied := 1 } : RuntimeRow) else x) row =
          { row with applied := 1 } := if_pos hcond
      have hmem2 : ({ row with applied := 1 } : RuntimeRow) ∈
          p'.runtimes := by
        rw [Cruns, ← hfrow]
        exact List.mem_map_of_mem _ hrowmem
      apply countP_eq_one_of_key (fun r => r.reservationId) _ p'.runtimes
        ?_ ({ row with applied := 1 }) hmem2 ?_ ?_
      · rw [Cruns, map_rid_of_commitMap]
        exact S.rid_nodup
      · simp [hrowrid, hrowst]
      · intro x hx
        simp only [Bool.and_eq_true, beq_iff_eq] at hx
        show x.reservationId =
          ({ row with applied := 1 } : RuntimeRow).reservationId
        exact hx.1.1.trans hrowrid.symm
  · intro shId hsh
    obtain ⟨newRows, hrows, hprops⟩ := S.rows_ext
    rw [hrows, List.map_append] at Cruns
    show p'.runtimes.filter (fun r => r.shareId == shId) = _
    rw [Cruns, List.filter_append]
    have hmemhops : ∀ e ∈ hops.enum, (e : Nat × HopSpec).2 ∈ hops := by
      intro e he
      have := List.mem_map_of_mem Prod.snd he
      rwa [List.enum_map_snd] at this
    have hshfree : ∀ sid : Nat,
        (∃ e ∈ hops.enum, isReservedHop (e : Nat × HopSpec).2 = true ∧
          hopShareId e.2 = sid) → sid ≠ shId := by
      intro sid ⟨e, he, hres, hsid⟩ hc
      have : e.2 ∈ hops.filter
          (fun hsp => isReservedHop hsp && hopShareId hsp == shId) :=
        List.mem_filter.mpr ⟨hmemhops e he, by simp [hres, hsid, hc]⟩
      rw [hsh] at this
      exact absurd this (List.not_mem_nil _)
    have hnewnil : ((newRows.map fun x =>
        if reserved.any (fun y => x.reservationId == y.reservationId)
        then ({ x with applied := 1 } : RuntimeRow) else x).filter
          (fun r => r.shareId == shId)) = [] := by
      apply List.filter_eq_nil_iff.mpr
      intro r hr
      simp only [List.mem_map] at hr
      obtain ⟨row, hrowmem, rfl⟩ := hr
      obtain ⟨_, _, e, he, hres, hsid⟩ := hprops row hrowmem
      have hshneq : row.shareId ≠ shId :=
        hshfree row.shareId ⟨e, he, hres, hsid⟩
      have hproj : ((if reserved.any
          (fun y => row.reservationId == y.reservationId)
          then ({ row with applied := 1 } : RuntimeRow)
          else row).shareId) = row.shareId := by
        split <;> rfl
      intro hc
      rw [hproj] at hc
      exact hshneq (by simpa using hc)
    have hfirst : ((p.runtimes.map fun x =>
        if reserved.any (fun y => x.reservationId == y.reservationId)
        then ({ x with applied := 1 } : RuntimeRow) else x).filter
          (fun r => r.shareId == shId)) =
        p.runtimes.filter (fun r => r.shareId == shId) := by
      apply filter_map_faithful
      intro x hx
      constructor
      · show ((if reserved.any
            (fun y => x.reservationId == y.reservationId)
            then ({ x with applied := 1 } : RuntimeRow)
            else x).shareId == shId) = (x.shareId == shId)
        split <;> rfl
      · intro hpx
        have hxs : x.shareId = shId := by simpa using hpx
        have hcondF : (reserved.any
            (fun y => x.reservationId == y.reservationId)) = false := by
          cases hcond : reserved.any
              (fun y => x.reservationId == y.reservationId) with
          | false => rfl
          | true =>
            exfalso
            obtain ⟨ri, hri, hbeq⟩ := List.any_eq_true.mp hcond
            have hxr : x.reservationId = ri.reservationId := by
              simpa using hbeq
            obtain ⟨row, hrowmem, hrowrid, _hst, hrowsid⟩ :=
              S.res_rows ri hri
            have hxmem1 : x ∈ p1.runtimes := by
              rw [hrows]
              exact List.mem_append_left _ hx
            have hxeq : x = row :=
              nodup_key_inj (fun r => r.reservationId) p1.runtimes
                S.rid_nodup x hxmem1 row hrowmem
                (by show x.reservationId = row.reservationId
                    rw [hxr, hrowrid])
            obtain ⟨e, he, hres, hsid⟩ := S.res_hops ri hri
            apply hshfree ri.shareId ⟨e, he, hres, hsid⟩
            rw [← hrowsid, ← hxeq, hxs]
        show (if reserved.any
            (fun y => x.reservationId == y.reservationId)
            then ({ x with applied := 1 } : RuntimeRow) else x) = x
        rw [if_neg (by simp [hcondF])]
    rw [hnewnil, hfirst, List.append_nil]

/-- Witness for the amended C2 at the dual-panel scenario: two reserved
hops (middle and exit), and the created tunnel carries exactly two
status-1 bindings. -/
theorem tunnel_create_binding_invariant_witness :
    (dualHops.filter isReservedHop).length = 2 ∧
      ∃ pr, createTunnel dualProvider dualConsumer "dual-1" dualHops =
          some pr ∧
        (pr.2.1.bindings.filter
          (fun b => b.tunnelId == pr.2.2 && b.status == 1)).length = 2 := by
  refine ⟨by decide, ?_⟩
  cases hcr : createTunnel dualProvider dualConsumer "dual-1" dualHops with
  | none => exact absurd hcr (by decide)
  | some pr =>
    obtain ⟨pP, cC, tid⟩ := pr
    refine ⟨(pP, cC, tid), rfl, ?_⟩
    have hmain := (tunnel_create_binding_invariant dualProvider
      dualConsumer "dual-1" dualHops pP cC tid (by decide) (by decide)
      (by decide) hcr).1
    rw [hmain]
    decide

/-! ### Replay machinery for C3 -/

/-- The (node, port) pairs held by active runtime rows — all the port
picker reads from the runtime table. -/
def activeView (p : ProviderStore) : List (Nat × Nat) :=
  (p.runtimes.filter (fun r => r.status == 1)).map
    (fun r => (r.nodeId, r.port))

/-- Two Provider states the reservation pipeline cannot tell apart:
equal static tables and equal active port views. -/
structure SimP (p q : ProviderStore) : Prop where
  shares_eq : p.shares = q.shares
  chain_eq : p.chainPorts = q.chainPorts
  forward_eq : p.forwardPorts = q.forwardPorts
  live_eq : p.liveNodes = q.liveNodes
  now_eq : p.now = q.now
  view_eq : activeView p = activeView q

/-- No active runtime row carries the resource key. -/
def keyFresh (p : ProviderStore) (k : ResourceKey) : Prop :=
  ∀ r ∈ p.runtimes, r.status = 1 → r.resourceKey ≠ k

/-- Pointwise relation between two optional results. -/
def OptRel {α β : Type} (R : α → β → Prop) :
    Option α → Option β → Prop
  | some a, some b => R a b
  | none, none => True
  | _, _ => False

theorem any_runtime_ports (n pt : Nat) :
    ∀ l : List RuntimeRow,
      (l.any fun r => r.nodeId == n && r.port == pt && r.status == 1) =
        ((l.filter (fun r => r.status == 1)).map
          (fun r => (r.nodeId, r.port))).any
          (fun v => v.1 == n && v.2 == pt) := by
  intro l
  induction l with
  | nil => rfl
  | cons b t ih =>
    rw [List.any_cons, List.filter_cons]
    cases hst : (b.status == 1) with
    | true => simp [hst, ih]
    | false => simp [hst, ih]

theorem portOccupied_congr {p q : ProviderStore} (hsim : SimP p q)
    (n pt : Nat) : portOccupied p n pt = portOccupied q n pt := by
  unfold portOccupied
  rw [hsim.chain_eq, hsim.forward_eq, any_runtime_ports,
    any_runtime_ports]
  have hv := hsim.view_eq
  unfold activeView at hv
  rw [hv]

theorem pickPeerSharePort_congr {p q : ProviderStore} (hsim : SimP p q)
    (sh : PeerShare) (req : Nat) :
    pickPeerSharePort p sh req = pickPeerSharePort q sh req := by
  have hocc : portOccupied p sh.nodeId = portOccupied q sh.nodeId :=
    funext (fun pt => portOccupied_congr hsim sh.nodeId pt)
  unfold pickPeerSharePort
  rw [hocc]

theorem view_append_active (l : List RuntimeRow) (row : RuntimeRow)
    (hst : row.status = 1) :
    ((l ++ [row]).filter (fun r => r.status == 1)).map
        (fun r => (r.nodeId, r.port)) =
      (l.filter (fun r => r.status == 1)).map
          (fun r => (r.nodeId, r.port)) ++ [(row.nodeId, row.port)] := by
  rw [List.filter_append, List.filter_cons]
  simp [hst]

theorem federationReserve_congr {p q : ProviderStore} (hsim : SimP p q)
    (sid : Nat) (k k' : ResourceKey) (req : Nat)
    (hkp : keyFresh p k) (hkq : keyFresh q k') :
    OptRel (fun a b =>
        a.2.2 = b.2.2 ∧ SimP a.1 b.1 ∧
        (∀ k₂, k₂ ≠ k → keyFresh p k₂ → keyFresh a.1 k₂) ∧
        (∀ k₂, k₂ ≠ k' → keyFresh q k₂ → keyFresh b.1 k₂))
      (federationReserve p sid k req) (federationReserve q sid k' req) := by
  have hfs' : findShare q sid = findShare p sid := by
    unfold findShare; rw [hsim.shares_eq]
  cases hfs : findShare p sid with
  | none =>
    simp only [federationReserve, hfs, hfs']
    exact trivial
  | some sh =>
  simp only [federationReserve, hfs, hfs']
  rw [hsim.now_eq]
  cases hus : shareUsable sh q.now with
  | false => exact trivial
  | true =>
  rw [show q.liveNodes.contains sh.nodeId =
      p.liveNodes.contains sh.nodeId by rw [hsim.live_eq]]
  cases hlv : p.liveNodes.contains sh.nodeId with
  | false => exact trivial
  | true =>
  have hdp : p.runtimes.find? (fun r =>
      r.shareId == sid && r.resourceKey == k && r.status == 1) =
      none := by
    apply List.find?_eq_none.mpr
    intro r hr
    simp only [Bool.and_eq_true, beq_iff_eq, not_and]
    intro h1 h2
    exact absurd h1.2 (hkp r hr h2)
  have hdq : q.runtimes.find? (fun r =>
      r.shareId == sid && r.resourceKey == k' && r.status == 1) =
      none := by
    apply List.find?_eq_none.mpr
    intro r hr
    simp only [Bool.and_eq_true, beq_iff_eq, not_and]
    intro h1 h2
    exact absurd h1.2 (hkq r hr h2)
  rw [hdp, hdq]
  rw [show pickPeerSharePort q sh req = pickPeerSharePort p sh req from
    (pickPeerSharePort_congr hsim sh req).symm]
  cases hpk : pickPeerSharePort p sh req with
  | none => exact trivial
  | some port =>
  refine ⟨rfl, ?_, ?_, ?_⟩
  · exact
      { shares_eq := hsim.shares_eq
        chain_eq := hsim.chain_eq
        forward_eq := hsim.forward_eq
        live_eq := hsim.live_eq
        now_eq := rfl
        view_eq := by
          show ((p.runtimes ++ [mkRuntimeRow p sid sh k port]).filter
              (fun r => r.status == 1)).map (fun r => (r.nodeId, r.port)) =
            ((q.runtimes ++ [mkRuntimeRow q sid sh k' port]).filter
              (fun r => r.status == 1)).map (fun r => (r.nodeId, r.port))
          rw [view_append_active _ _ rfl, view_append_active _ _ rfl]
          have hv := hsim.view_eq
          unfold activeView at hv
          rw [hv]
          rfl }
  · intro k₂ hk₂ hfresh r hr hst
    replace hr : r ∈ p.runtimes ++ [mkRuntimeRow p sid sh k port] := hr
    rcases List.mem_append.mp hr with hr' | hr'
    · exact hfresh r hr' hst
    · simp only [List.mem_singleton] at hr'
      subst hr'
      show (mkRuntimeRow p sid sh k port).resourceKey ≠ k₂
      show k ≠ k₂
      exact fun hc => hk₂ hc.symm
  · intro k₂ hk₂ hfresh r hr hst
    replace hr : r ∈ q.runtimes ++ [mkRuntimeRow q sid sh k' port] := hr
    rcases List.mem_append.mp hr with hr' | hr'
    · exact hfresh r hr' hst
    · simp only [List.mem_singleton] at hr'
      subst hr'
      show k' ≠ k₂
      exact fun hc => hk₂ hc.symm

/-- The reservation-id-free content of a `ReservedInfo`. -/
def resProj (ri : ReservedInfo) : Nat × Nat × Nat × Nat × Nat :=
  (ri.position, ri.chainType, ri.shadowNodeId, ri.shareId, ri.port)

theorem reserveHops_congr (n n' : String) :
    ∀ (l : List (Nat × HopSpec)) (p q : ProviderStore),
      SimP p q →
      (∀ e ∈ l, keyFresh p ⟨n, (e : Nat × HopSpec).2.chainType, e.1⟩) →
      (∀ e ∈ l, keyFresh q ⟨n', (e : Nat × HopSpec).2.chainType, e.1⟩) →
      (l.map Prod.fst).Nodup →
      OptRel (fun a b => SimP a.1 b.1 ∧ a.2.map resProj = b.2.map resProj)
        (reserveHops n p l) (reserveHops n' q l) := by
  intro l
  induction l with
  | nil => intro p q hsim _ _ _; exact ⟨hsim, rfl⟩
  | cons e rest ih =>
    obtain ⟨i, hsp⟩ := e
    intro p q hsim hfp hfq hnd
    rw [List.map_cons, List.nodup_cons] at hnd
    cases hsp with
    | loc a b c =>
      exact ih p q hsim
        (fun e he => hfp e (List.mem_cons_of_mem _ he))
        (fun e he => hfq e (List.mem_cons_of_mem _ he)) hnd.2
    | rem shadow shareId ct req =>
      by_cases hct : (ct == 1) = true
      · unfold reserveHops
        rw [if_pos hct, if_pos hct]
        exact ih p q hsim
          (fun e he => hfp e (List.mem_cons_of_mem _ he))
          (fun e he => hfq e (List.mem_cons_of_mem _ he)) hnd.2
      · unfold reserveHops
        rw [if_neg hct, if_neg hct]
        have R := federationReserve_congr hsim shareId ⟨n, ct, i⟩
          ⟨n', ct, i⟩ req
          (hfp (i, .rem shadow shareId ct req)
            (List.mem_cons_self _ _))
          (hfq (i, .rem shadow shareId ct req)
            (List.mem_cons_self _ _))
        cases hra : federationReserve p shareId ⟨n, ct, i⟩ req with
        | none =>
          cases hrb : federationReserve q shareId ⟨n', ct, i⟩ req with
          | none => simp only [hra, hrb]; exact trivial
          | some b => rw [hra, hrb] at R; exact R.elim
        | some a =>
          cases hrb : federationReserve q shareId ⟨n', ct, i⟩ req with
          | none => rw [hra, hrb] at R; exact R.elim
          | some b =>
            rw [hra, hrb] at R
            obtain ⟨hport, hsim', hfpT, hfqT⟩ := R
            have hfp2 : ∀ e ∈ rest,
                keyFresh a.1 ⟨n, (e : Nat × HopSpec).2.chainType, e.1⟩ := by
              intro e he
              refine hfpT ⟨n, e.2.chainType, e.1⟩ ?_
                (hfp e (List.mem_cons_of_mem _ he))
              intro hc
              have hpos : e.1 = i := congrArg ResourceKey.position hc
              apply hnd.1
              rw [← hpos]
              exact List.mem_map.mpr ⟨e, he, rfl⟩
            have hfq2 : ∀ e ∈ rest,
                keyFresh b.1 ⟨n', (e : Nat × HopSpec).2.chainType, e.1⟩ := by
              intro e he
              refine hfqT ⟨n', e.2.chainType, e.1⟩ ?_
                (hfq e (List.mem_cons_of_mem _ he))
              intro hc
              have hpos : e.1 = i := congrArg ResourceKey.position hc
              apply hnd.1
              rw [← hpos]
              exact List.mem_map.mpr ⟨e, he, rfl⟩
            have IH := ih a.1 b.1 hsim' hfp2 hfq2 hnd.2
            show OptRel (fun x y =>
                SimP x.1 y.1 ∧ x.2.map resProj = y.2.map resProj)
              ((reserveHops n a.1 rest).map (fun qr =>
                (qr.1, (⟨i, ct, shadow, shareId, a.2.1, a.2.2⟩ :
                  ReservedInfo) :: qr.2)))
              ((reserveHops n' b.1 rest).map (fun qr =>
                (qr.1, (⟨i, ct, shadow, shareId, b.2.1, b.2.2⟩ :
                  ReservedInfo) :: qr.2)))
            cases hla : reserveHops n a.1 rest with
            | none =>
              cases hlb : reserveHops n' b.1 rest with
              | none => exact trivial
              | some y => rw [hla, hlb] at IH; exact IH.elim
            | some x =>
              cases hlb : reserveHops n' b.1 rest with
              | none => rw [hla, hlb] at IH; exact IH.elim
              | some y =>
                rw [hla, hlb] at IH
                obtain ⟨hsim2, hmap⟩ := IH
                refine ⟨hsim2, ?_⟩
                show resProj ⟨i, ct, shadow, shareId, a.2.1, a.2.2⟩ ::
                    x.2.map resProj =
                  resProj ⟨i, ct, shadow, shareId, b.2.1, b.2.2⟩ ::
                    y.2.map resProj
                rw [hmap]
                show (i, ct, shadow, shareId, a.2.2) :: _ =
                  (i, ct, shadow, shareId, b.2.2) :: _
                rw [hport]

theorem releaseFold_shape :
    ∀ (bs : List Binding) (p : ProviderStore),
      StaticEqP (bs.foldl
        (fun acc b => federationRelease acc b.reservationId) p) p ∧
      (bs.foldl (fun acc b =>
        federationRelease acc b.reservationId) p).nextReservationId =
        p.nextReservationId ∧
      (bs.foldl (fun acc b =>
        federationRelease acc b.reservationId) p).runtimes =
        p.runtimes.map (fun x =>
          if bs.any (fun b => x.reservationId == b.reservationId) then
            { x with status := 0 }
          else x) := by
  intro bs
  induction bs with
  | nil => intro p; exact ⟨StaticEqP.refl p, rfl, by simp⟩
  | cons b rest ih =>
    intro p
    obtain ⟨hst, hnext, hruns⟩ := ih (federationRelease p b.reservationId)
    refine ⟨hst.trans ⟨rfl, rfl, rfl, rfl, rfl, rfl, rfl⟩, hnext, ?_⟩
    show (rest.foldl (fun acc b => federationRelease acc b.reservationId)
      (federationRelease p b.reservationId)).runtimes = _
    rw [hruns]
    show ((p.runtimes.map fun x =>
        if x.reservationId == b.reservationId then { x with status := 0 }
        else x).map _) = _
    rw [List.map_map]
    apply List.map_congr_left
    intro x _
    show (fun y => if rest.any
          (fun b2 => y.reservationId == b2.reservationId) then
        { y with status := 0 } else y)
        (if x.reservationId == b.reservationId then
          { x with status := 0 } else x) =
      if (b :: rest).any
          (fun b2 => x.reservationId == b2.reservationId) then
        { x with status := 0 }
      else x
    cases hxr : (x.reservationId == b.reservationId) with
    | true =>
      cases hrest : (rest.any
          fun b2 => x.reservationId == b2.reservationId) with
      | true => simp [hxr, hrest]
      | false => simp [hxr, hrest]
    | false => simp [hxr]

/-- What a successful reserve pass guarantees when no resource key can
hit the idempotency branch: one fresh runtime row per reserved entry,
paired in order. -/
structure ReserveFresh (p p1 : ProviderStore)
    (res : List ReservedInfo) : Prop where
  rows : ∃ newRows, p1.runtimes = p.runtimes ++ newRows ∧
      List.Forall₂ (fun (row : RuntimeRow) (ri : ReservedInfo) =>
        row.reservationId = ri.reservationId ∧ row.status = 1 ∧
        p.liveNodes.contains row.nodeId = true ∧
        p.nextReservationId ≤ row.reservationId) newRows res

theorem forall₂_mem_right {α β : Type} {R : α → β → Prop} :
    ∀ {l₁ : List α} {l₂ : List β}, List.Forall₂ R l₁ l₂ → ∀ b ∈ l₂,
      ∃ a ∈ l₁, R a b := by
  intro l₁ l₂ h
  induction h with
  | nil => intro b hb; simp at hb
  | cons hab _ ih =>
    intro b hb
    rcases List.mem_cons.mp hb with rfl | hb'
    · exact ⟨_, List.mem_cons_self _ _, hab⟩
    · obtain ⟨a, ha, hr⟩ := ih b hb'
      exact ⟨a, List.mem_cons_of_mem _ ha, hr⟩

theorem forall₂_mem_left {α β : Type} {R : α → β → Prop} :
    ∀ {l₁ : List α} {l₂ : List β}, List.Forall₂ R l₁ l₂ → ∀ a ∈ l₁,
      ∃ b ∈ l₂, R a b := by
  intro l₁ l₂ h
  induction h with
  | nil => intro a ha; simp at ha
  | cons hab _ ih =>
    intro a ha
    rcases List.mem_cons.mp ha with rfl | ha'
    · exact ⟨_, List.mem_cons_self _ _, hab⟩
    · obtain ⟨b, hb, hr⟩ := ih a ha'
      exact ⟨b, List.mem_cons_of_mem _ hb, hr⟩

theorem reserveHops_fresh_shape (n : String) :
    ∀ (l : List (Nat × HopSpec)) (p p1 : ProviderStore)
      (res : List ReservedInfo),
      (∀ e ∈ l, keyFresh p ⟨n, (e : Nat × HopSpec).2.chainType, e.1⟩) →
      (l.map Prod.fst).Nodup →
      reserveHops n p l = some (p1, res) →
      ReserveFresh p p1 res := by
  intro l
  induction l with
  | nil =>
    intro p p1 res _ _ h
    have h' : (p, ([] : List ReservedInfo)) = (p1, res) :=
      Option.some.inj h
    cases h'
    exact ⟨[], (List.append_nil _).symm, List.Forall₂.nil⟩
  | cons e rest ih =>
    obtain ⟨i, hsp⟩ := e
    intro p p1 res hf hnd h
    rw [List.map_cons, List.nodup_cons] at hnd
    cases hsp with
    | loc a b c =>
      exact ih p p1 res
        (fun e he => hf e (List.mem_cons_of_mem _ he)) hnd.2 h
    | rem shadow shareId ct req =>
      by_cases hct : (ct == 1) = true
      · have h' : reserveHops n p rest = some (p1, res) := by
          unfold reserveHops at h
          rwa [if_pos hct] at h
        exact ih p p1 res
          (fun e he => hf e (List.mem_cons_of_mem _ he)) hnd.2 h'
      · unfold reserveHops at h
        rw [if_neg hct] at h
        cases hres : federationReserve p shareId ⟨n, ct, i⟩ req with
        | none => rw [hres] at h; cases h
        | some pr =>
          rw [hres] at h
          simp only [Option.map_eq_some'] at h
          obtain ⟨qr, hq, hqe⟩ := h
          obtain ⟨q1, qres⟩ := qr
          obtain ⟨hp1, hresl⟩ : q1 = p1 ∧
              (⟨i, ct, shadow, shareId, pr.2.1, pr.2.2⟩ : ReservedInfo) ::
                qres = res := by
            simpa using hqe
          rw [hp1] at hq
          rw [← hresl]
          rcases federationReserve_shape
              (show federationReserve p shareId ⟨n, ct, i⟩ req =
                some (pr.1, pr.2.1, pr.2.2) from by rw [hres]) with
            ⟨_, r0, hr0mem, _, hr0key, hr0st, _, _⟩ |
            ⟨sh, _hfs, _hus, hlv, _hdna, _hpick, hrid, hp'⟩
          · exact absurd hr0key
              (hf (i, .rem shadow shareId ct req)
                (List.mem_cons_self _ _) r0 hr0mem hr0st)
          · have hf' : ∀ e ∈ rest,
                keyFresh pr.1 ⟨n, (e : Nat × HopSpec).2.chainType, e.1⟩ := by
              intro e he r hr hrst
              rw [hp'] at hr
              replace hr : r ∈ p.runtimes ++
                  [mkRuntimeRow p shareId sh ⟨n, ct, i⟩ pr.2.2] := hr
              rcases List.mem_append.mp hr with hr' | hr'
              · exact hf e (List.mem_cons_of_mem _ he) r hr' hrst
              · simp only [List.mem_singleton] at hr'
                subst hr'
                show (⟨n, ct, i⟩ : ResourceKey) ≠ _
                intro hc
                have hpos : i = e.1 := congrArg ResourceKey.position hc
                apply hnd.1
                rw [hpos]
                exact List.mem_map.mpr ⟨e, he, rfl⟩
            obtain ⟨newRows, hrows, hpair⟩ := (ih pr.1 p1 qres hf'
              hnd.2 hq).rows
            refine ⟨mkRuntimeRow p shareId sh ⟨n, ct, i⟩ pr.2.2 ::
              newRows, ?_, ?_⟩
            · rw [hrows, hp']
              simp
            · refine List.Forall₂.cons ⟨?_, rfl, ?_, ?_⟩ ?_
              · show p.nextReservationId = pr.2.1
                exact hrid.symm
              · show p.liveNodes.contains sh.nodeId = true
                exact hlv
              · exact Nat.le_refl _
              · apply hpair.imp
                intro row ri hrow
                obtain ⟨h1, h2, h3, h4⟩ := hrow
                refine ⟨h1, h2, ?_, ?_⟩
                · rw [hp'] at h3
                  exact h3
                · have : pr.1.nextReservationId =
                      p.nextReservationId + 1 := by rw [hp']
                  omega

theorem commitAll_total :
    ∀ (res : List ReservedInfo) (p : ProviderStore),
      (∀ ri ∈ res,
        (∃ x ∈ p.runtimes, x.reservationId = ri.reservationId) ∧
        (∀ x ∈ p.runtimes, x.reservationId = ri.reservationId →
          p.liveNodes.contains x.nodeId = true)) →
      ∃ p2, commitAll p res = some p2 := by
  intro res
  induction res with
  | nil => intro p _; exact ⟨p, rfl⟩
  | cons r rest ih =>
    intro p hp
    obtain ⟨⟨x0, hx0, hx0r⟩, hlive⟩ := hp r (List.mem_cons_self _ _)
    cases hf : p.runtimes.find?
        (fun x => x.reservationId == r.reservationId) with
    | none =>
      exfalso
      have := List.find?_eq_none.mp hf x0 hx0
      simp [hx0r] at this
    | some xf =>
      have hxfr : xf.reservationId = r.reservationId := by
        have := List.find?_some hf
        simpa using this
      have hxfm := List.mem_of_find?_eq_some hf
      have hxlv : p.liveNodes.contains xf.nodeId = true :=
        hlive xf hxfm hxfr
      have hcommit : federationCommit p r.reservationId =
          some { p with
            runtimes := p.runtimes.map fun x =>
              if x.reservationId == r.reservationId then
                { x with applied := 1 }
              else x } := by
        unfold federationCommit
        simp only [hf]
        rw [hxlv]
        rfl
      set pnext : ProviderStore := { p with
          runtimes := p.runtimes.map fun x =>
            if x.reservationId == r.reservationId then
              { x with applied := 1 }
            else x } with hpn
      have hip : ∀ ri ∈ rest,
          (∃ x ∈ pnext.runtimes, x.reservationId = ri.reservationId) ∧
          (∀ x ∈ pnext.runtimes, x.reservationId = ri.reservationId →
            pnext.liveNodes.contains x.nodeId = true) := by
        intro ri hri
        obtain ⟨⟨x, hx, hxr⟩, hlv2⟩ := hp ri (List.mem_cons_of_mem _ hri)
        constructor
        · refine ⟨if x.reservationId == r.reservationId then
            { x with applied := 1 } else x, ?_, ?_⟩
          · exact List.mem_map_of_mem _ hx
          · show (if x.reservationId == r.reservationId then
                ({ x with applied := 1 } : RuntimeRow)
              else x).reservationId = ri.reservationId
            split <;> exact hxr
        · intro y hy hyr
          replace hy : y ∈ p.runtimes.map fun x =>
              if x.reservationId == r.reservationId then
                ({ x with applied := 1 } : RuntimeRow)
              else x := hy
          simp only [List.mem_map] at hy
          obtain ⟨z, hz, rfl⟩ := hy
          have hzr : z.reservationId = ri.reservationId := by
            revert hyr
            show (if z.reservationId == r.reservationId then
                ({ z with applied := 1 } : RuntimeRow)
              else z).reservationId = ri.reservationId → _
            split <;> exact id
          have := hlv2 z hz hzr
          show _ = true
          revert this
          show p.liveNodes.contains z.nodeId = true → _
          intro hzl
          show pnext.liveNodes.contains
            ((if z.reservationId == r.reservationId then
                ({ z with applied := 1 } : RuntimeRow)
              else z).nodeId) = true
          have hnode : ((if z.reservationId == r.reservationId then
              ({ z with applied := 1 } : RuntimeRow)
            else z).nodeId) = z.nodeId := by
            split <;> rfl
          rw [hnode]
          exact hzl
      obtain ⟨p2, hrest⟩ := ih pnext hip
      refine ⟨p2, ?_⟩
      unfold commitAll
      simp only [hcommit]
      exact hrest

/-- The runtime-row update a commit pass applies: mark the rows of the
committed reservations `applied=1`. -/
def commitMark (res : List ReservedInfo) (x : RuntimeRow) : RuntimeRow :=
  if res.any (fun ri => x.reservationId == ri.reservationId) then
    { x with applied := 1 }
  else x

/-- The runtime-row update the delete's release pass applies: mark the
rows of the released reservations `status=0`. -/
def releaseMark (res : List ReservedInfo) (x : RuntimeRow) : RuntimeRow :=
  if res.any (fun ri => x.reservationId == ri.reservationId) then
    { x with status := 0 }
  else x

theorem commitMark_rid (res : List ReservedInfo) (x : RuntimeRow) :
    (commitMark res x).reservationId = x.reservationId := by
  unfold commitMark
  split <;> rfl

theorem releaseMark_rid (res : List ReservedInfo) (x : RuntimeRow) :
    (releaseMark res x).reservationId = x.reservationId := by
  unfold releaseMark
  split <;> rfl

theorem commitMark_skip (res : List ReservedInfo) (x : RuntimeRow)
    (h : res.any (fun ri => x.reservationId == ri.reservationId) = false) :
    commitMark res x = x := by
  unfold commitMark
  simp [h]

theorem releaseMark_skip (res : List ReservedInfo) (x : RuntimeRow)
    (h : res.any (fun ri => x.reservationId == ri.reservationId) = false) :
    releaseMark res x = x := by
  unfold releaseMark
  simp [h]

theorem releaseMark_status_of_hit (res : List ReservedInfo)
    (x : RuntimeRow)
    (h : res.any (fun ri => x.reservationId == ri.reservationId) = true) :
    (releaseMark res x).status = 0 := by
  unfold releaseMark
  rw [if_pos h]

theorem enum_fst_nodup {A : Type} (l : List A) :
    (l.enum.map Prod.fst).Nodup := by
  rw [List.enum_map_fst]
  exact List.nodup_range _

theorem any_rid_of_bindingMap (t : Nat) (res : List ReservedInfo)
    (x : RuntimeRow) :
    ((res.map (fun r =>
      (⟨t, r.chainType, r.shadowNodeId, r.reservationId, 1⟩ :
        Binding))).any (fun b => x.reservationId == b.reservationId)) =
    res.any (fun y => x.reservationId == y.reservationId) := by
  induction res with
  | nil => rfl
  | cons rh rt ih =>
    rw [List.map_cons, List.any_cons, List.any_cons, ih]

theorem consumerPortOccupied_congr {c2 c : ConsumerStore}
    (h1 : c2.chainRows = c.chainRows)
    (h2 : c2.forwardPorts = c.forwardPorts)
    (h3 : c2.activeRuntimePorts = c.activeRuntimePorts) :
    consumerPortOccupied c2 = consumerPortOccupied c := by
  funext taken n pt
  unfold consumerPortOccupied
  rw [h1, h2, h3]

theorem pickLocals_congr {c2 c : ConsumerStore}
    (h0 : c2.nodes = c.nodes) (h1 : c2.chainRows = c.chainRows)
    (h2 : c2.forwardPorts = c.forwardPorts)
    (h3 : c2.activeRuntimePorts = c.activeRuntimePorts) :
    ∀ (l : List (Nat × HopSpec)) (taken : List (Nat × Nat)),
      pickLocals c2 l taken = pickLocals c l taken := by
  have hpl : ∀ (taken : List (Nat × Nat)) (n r : Nat),
      pickLocalPort c2 taken n r = pickLocalPort c taken n r := by
    intro taken n r
    unfold pickLocalPort
    rw [h0, consumerPortOccupied_congr h1 h2 h3]
  intro l
  induction l with
  | nil => intro taken; rfl
  | cons e rest ih =>
    intro taken
    obtain ⟨i, hsp⟩ := e
    cases hsp with
    | rem a b d r =>
      unfold pickLocals
      exact ih taken
    | loc nodeId ct req =>
      unfold pickLocals
      rw [hpl taken nodeId req]
      by_cases hct : (ct == 1) = true
      · rw [if_pos hct, if_pos hct]
        exact ih taken
      · rw [if_neg hct, if_neg hct]
        cases hpk : pickLocalPort c taken nodeId req with
        | none => rfl
        | some port =>
          show (pickLocals c2 rest ((nodeId, port) :: taken)).map
              (fun l => (ct, nodeId, port) :: l) =
            (pickLocals c rest ((nodeId, port) :: taken)).map
              (fun l => (ct, nodeId, port) :: l)
          rw [ih ((nodeId, port) :: taken)]

/-- C3: when a created tunnel is deleted, no binding row of the tunnel
remains, every Provider runtime row that backed one of its bindings is
released to `status=0`, and re-creating the same hop specification
afterwards succeeds with the identical port allocation on the new
tunnel's chain rows. -/
theorem tunnel_delete_releases_and_replays (p : ProviderStore)
    (c : ConsumerStore) (name name' : String) (hops : List HopSpec)
    (p' : ProviderStore) (c' : ConsumerStore) (tid : Nat)
    (hnd : (p.runtimes.map (fun r => r.reservationId)).Nodup)
    (hlt : ∀ r ∈ p.runtimes, r.reservationId < p.nextReservationId)
    (hcb : ∀ b ∈ c.bindings, b.tunnelId < c.nextTunnelId)
    (hcc : ∀ r ∈ c.chainRows, r.tunnelId < c.nextTunnelId)
    (hf1 : ∀ e ∈ hops.enum,
      keyFresh p ⟨name, (e : Nat × HopSpec).2.chainType, e.1⟩)
    (hf2 : ∀ e ∈ hops.enum,
      keyFresh p ⟨name', (e : Nat × HopSpec).2.chainType, e.1⟩)
    (h : createTunnel p c name hops = some (p', c', tid)) :
    (deleteTunnel p' c' tid).2.bindings.filter
        (fun b => b.tunnelId == tid) = [] ∧
    (∀ b ∈ c'.bindings, b.tunnelId = tid →
      (∃ r ∈ (deleteTunnel p' c' tid).1.runtimes,
        r.reservationId = b.reservationId) ∧
      (∀ r ∈ (deleteTunnel p' c' tid).1.runtimes,
        r.reservationId = b.reservationId → r.status = 0)) ∧
    (∃ p2 c2 tid2,
      createTunnel (deleteTunnel p' c' tid).1 (deleteTunnel p' c' tid).2
          name' hops = some (p2, c2, tid2) ∧
      portsOfTunnel c2 tid2 = portsOfTunnel c' tid) := by
  unfold createTunnel at h
  split at h
  · cases h
  next lp hlp =>
  split at h
  · cases h
  next pr hrh =>
  split at h
  · cases h
  next pc hca =>
  obtain ⟨p1, reserved⟩ := pr
  have hinj := Option.some.inj h
  have hp' : pc = p' := congrArg Prod.fst hinj
  have ht : c.nextTunnelId = tid :=
    congrArg (fun z : ProviderStore × ConsumerStore × Nat => z.2.2) hinj
  have hc' : ({ c with
      chainRows := c.chainRows ++ lp.map (fun q =>
        (⟨c.nextTunnelId, q.1, q.2.1, q.2.2⟩ : ChainRow)) ++
        reserved.map (fun r =>
          (⟨c.nextTunnelId, r.chainType, r.shadowNodeId, r.port⟩ :
            ChainRow))
      bindings := c.bindings ++ reserved.map (fun r =>
        (⟨c.nextTunnelId, r.chainType, r.shadowNodeId, r.reservationId,
          1⟩ : Binding))
      tunnels := c.tunnels ++ [c.nextTunnelId]
      nextTunnelId := c.nextTunnelId + 1 } : ConsumerStore) = c' :=
    congrArg (fun z : ProviderStore × ConsumerStore × Nat => z.2.1) hinj
  subst hp'
  subst ht
  set pd : ProviderStore := (deleteTunnel pc c' c.nextTunnelId).1 with hpddef
  set cd : ConsumerStore := (deleteTunnel pc c' c.nextTunnelId).2 with hcddef
  have hcbind : c'.bindings = c.bindings ++ reserved.map (fun r =>
      (⟨c.nextTunnelId, r.chainType, r.shadowNodeId, r.reservationId,
        1⟩ : Binding)) := by
    rw [← hc']
  have hcchains : c'.chainRows = c.chainRows ++ lp.map (fun q =>
      (⟨c.nextTunnelId, q.1, q.2.1, q.2.2⟩ : ChainRow)) ++
      reserved.map (fun r =>
        (⟨c.nextTunnelId, r.chainType, r.shadowNodeId, r.port⟩ :
          ChainRow)) := by
    rw [← hc']
  have hcnodes : c'.nodes = c.nodes := by rw [← hc']
  have hcfw : c'.forwardPorts = c.forwardPorts := by rw [← hc']
  have hcact : c'.activeRuntimePorts = c.activeRuntimePorts := by
    rw [← hc']
  have hcnext : c'.nextTunnelId = c.nextTunnelId + 1 := by rw [← hc']
  have hpos : (hops.enum.map Prod.fst).Nodup := enum_fst_nodup hops
  have S := reserveHops_sound name hops.enum p p1 reserved hnd hlt hrh
  have RF := reserveHops_fresh_shape name hops.enum p p1 reserved hf1
    hpos hrh
  obtain ⟨Cstat, Cnext, Cruns⟩ := commitAll_shape reserved p1 pc hca
  obtain ⟨newRows, hrows, hpair⟩ := RF.rows
  have hrid_ge : ∀ ri ∈ reserved,
      p.nextReservationId ≤ ri.reservationId := by
    intro ri hri
    obtain ⟨row, _, hreq, _, _, hge⟩ := forall₂_mem_right hpair ri hri
    omega
  obtain ⟨Rstat, Rnext, Rruns⟩ := releaseFold_shape
    (c'.bindings.filter (fun b => b.tunnelId == c.nextTunnelId)) pc
  have hbsval : c'.bindings.filter
      (fun b => b.tunnelId == c.nextTunnelId) =
      reserved.map (fun r =>
        (⟨c.nextTunnelId, r.chainType, r.shadowNodeId, r.reservationId,
          1⟩ : Binding)) := by
    rw [hcbind, List.filter_append]
    have hold : c.bindings.filter
        (fun b => b.tunnelId == c.nextTunnelId) = [] := by
      apply List.filter_eq_nil_iff.mpr
      intro b hb
      have := hcb b hb
      simp only [beq_iff_eq]
      intro hcon
      omega
    have hnew : (reserved.map (fun r =>
        (⟨c.nextTunnelId, r.chainType, r.shadowNodeId, r.reservationId,
          1⟩ : Binding))).filter
          (fun b => b.tunnelId == c.nextTunnelId) =
        reserved.map (fun r =>
          (⟨c.nextTunnelId, r.chainType, r.shadowNodeId,
            r.reservationId, 1⟩ : Binding)) := by
      apply List.filter_eq_self.mpr
      intro b hb
      simp only [List.mem_map] at hb
      obtain ⟨ri, _, rfl⟩ := hb
      simp
    rw [hold, hnew, List.nil_append]
  have hany : ∀ x : RuntimeRow,
      ((c'.bindings.filter (fun b => b.tunnelId == c.nextTunnelId)).any
        (fun b => x.reservationId == b.reservationId)) =
      reserved.any (fun y => x.reservationId == y.reservationId) := by
    intro x
    rw [hbsval]
    exact any_rid_of_bindingMap c.nextTunnelId reserved x
  have hpdruns : pd.runtimes = pc.runtimes.map (releaseMark reserved) := by
    have h0 : pd.runtimes = pc.runtimes.map (fun x =>
        if (c'.bindings.filter
            (fun b => b.tunnelId == c.nextTunnelId)).any
            (fun b => x.reservationId == b.reservationId) then
          { x with status := 0 }
        else x) := Rruns
    rw [h0]
    apply List.map_congr_left
    intro x _
    show (if (c'.bindings.filter
        (fun b => b.tunnelId == c.nextTunnelId)).any
        (fun b => x.reservationId == b.reservationId) then
      ({ x with status := 0 } : RuntimeRow)
    else x) = releaseMark reserved x
    rw [hany x]
    rfl
  have hpc : pc.runtimes = p1.runtimes.map (commitMark reserved) := Cruns
  have hpdshape : pd.runtimes = p1.runtimes.map (fun x =>
      releaseMark reserved (commitMark reserved x)) := by
    rw [hpdruns, hpc, List.map_map]
    rfl
  have hold_cond : ∀ x ∈ p.runtimes,
      reserved.any (fun y => x.reservationId == y.reservationId) =
        false := by
    intro x hx
    cases hcond : reserved.any
        (fun y => x.reservationId == y.reservationId) with
    | false => rfl
    | true =>
      exfalso
      obtain ⟨ri, hri, hbeq⟩ := List.any_eq_true.mp hcond
      have hxr : x.reservationId = ri.reservationId := by
        simpa using hbeq
      have h1 := hlt x hx
      have h2 := hrid_ge ri hri
      omega
  have hold_id : ∀ x ∈ p.runtimes,
      releaseMark reserved (commitMark reserved x) = x := by
    intro x hx
    rw [commitMark_skip reserved x (hold_cond x hx)]
    exact releaseMark_skip reserved x (hold_cond x hx)
  have hmap_old : p.runtimes.map (fun x =>
      releaseMark reserved (commitMark reserved x)) = p.runtimes := by
    have h1 : p.runtimes.map (fun x =>
        releaseMark reserved (commitMark reserved x)) =
        p.runtimes.map id := List.map_congr_left hold_id
    rw [h1, List.map_id]
  have hpd_decomp : pd.runtimes = p.runtimes ++ newRows.map (fun x =>
      releaseMark reserved (commitMark reserved x)) := by
    rw [hpdshape, hrows, List.map_append, hmap_old]
  have hnew0 : ∀ row ∈ newRows,
      (releaseMark reserved (commitMark reserved row)).status = 0 := by
    intro row hrow
    obtain ⟨ri, hri, hreq, _, _, _⟩ := forall₂_mem_left hpair row hrow
    apply releaseMark_status_of_hit
    apply List.any_eq_true.mpr
    refine ⟨ri, hri, ?_⟩
    simp only [commitMark_rid, beq_iff_eq]
    exact hreq
  have hview : activeView p = activeView pd := by
    unfold activeView
    rw [hpd_decomp, List.filter_append, List.map_append]
    have hnil : (newRows.map (fun x =>
        releaseMark reserved (commitMark reserved x))).filter
        (fun r => r.status == 1) = [] := by
      apply List.filter_eq_nil_iff.mpr
      intro r hr
      simp only [List.mem_map] at hr
      obtain ⟨row, hrowmem, rfl⟩ := hr
      have h0 := hnew0 row hrowmem
      simp [h0]
    rw [hnil, List.map_nil, List.append_nil]
  have hRstat : StaticEqP pd pc := Rstat
  have hstatic : StaticEqP pd p := (hRstat.trans Cstat).trans S.static_eq
  have hsimP : SimP p pd :=
    { shares_eq := hstatic.shares_eq.symm
      chain_eq := hstatic.chain_eq.symm
      forward_eq := hstatic.forward_eq.symm
      live_eq := hstatic.live_eq.symm
      now_eq := hstatic.now_eq.symm
      view_eq := hview }
  have hf2d : ∀ e ∈ hops.enum,
      keyFresh pd ⟨name', (e : Nat × HopSpec).2.chainType, e.1⟩ := by
    intro e he r hr hst
    rw [hpd_decomp] at hr
    rcases List.mem_append.mp hr with hr' | hr'
    · exact hf2 e he r hr' hst
    · exfalso
      simp only [List.mem_map] at hr'
      obtain ⟨row, hrowmem, rfl⟩ := hr'
      have h0 := hnew0 row hrowmem
      omega
  have hpdnext : pd.nextReservationId = p1.nextReservationId := by
    have h1 : pd.nextReservationId = pc.nextReservationId := Rnext
    rw [h1, Cnext]
  have hlt_pd : ∀ x ∈ pd.runtimes,
      x.reservationId < pd.nextReservationId := by
    intro x hx
    rw [hpdshape] at hx
    simp only [List.mem_map] at hx
    obtain ⟨z, hz, rfl⟩ := hx
    have := S.rid_lt z hz
    rw [hpdnext, releaseMark_rid, commitMark_rid]
    exact this
  have R := reserveHops_congr name name' hops.enum p pd hsimP hf1 hf2d
    hpos
  cases hrh2 : reserveHops name' pd hops.enum with
  | none =>
    rw [hrh, hrh2] at R
    exact R.elim
  | some pr2 =>
  rw [hrh, hrh2] at R
  obtain ⟨pd1, reserved2⟩ := pr2
  obtain ⟨hsim1, hproj⟩ := R
  have RF2 := reserveHops_fresh_shape name' hops.enum pd pd1 reserved2
    hf2d hpos hrh2
  obtain ⟨newRows2, hrows2, hpair2⟩ := RF2.rows
  have hlive_pd1 : pd1.liveNodes = pd.liveNodes := by
    rw [← hsim1.live_eq, S.static_eq.live_eq, hsimP.live_eq]
  have hcommit_hyp : ∀ ri ∈ reserved2,
      (∃ x ∈ pd1.runtimes, x.reservationId = ri.reservationId) ∧
      (∀ x ∈ pd1.runtimes, x.reservationId = ri.reservationId →
        pd1.liveNodes.contains x.nodeId = true) := by
    intro ri hri
    obtain ⟨row, hrowmem, hreq, hrst, hrlive, hrge⟩ :=
      forall₂_mem_right hpair2 ri hri
    constructor
    · refine ⟨row, ?_, hreq⟩
      rw [hrows2]
      exact List.mem_append_right _ hrowmem
    · intro x hx hxr
      rw [hrows2] at hx
      rcases List.mem_append.mp hx with hx' | hx'
      · exfalso
        have h1 := hlt_pd x hx'
        omega
      · obtain ⟨ri', hri', _, _, hlv, _⟩ :=
          forall₂_mem_left hpair2 x hx'
        rw [hlive_pd1]
        exact hlv
  obtain ⟨pd2, hca2⟩ := commitAll_total reserved2 pd1 hcommit_hyp
  have hcd_nodes : cd.nodes = c.nodes := by
    show c'.nodes = c.nodes
    exact hcnodes
  have hcd_fw : cd.forwardPorts = c.forwardPorts := by
    show c'.forwardPorts = c.forwardPorts
    exact hcfw
  have hcd_act : cd.activeRuntimePorts = c.activeRuntimePorts := by
    show c'.activeRuntimePorts = c.activeRuntimePorts
    exact hcact
  have htid2 : cd.nextTunnelId = c.nextTunnelId + 1 := by
    show c'.nextTunnelId = c.nextTunnelId + 1
    exact hcnext
  have hcd_chains : cd.chainRows = c.chainRows := by
    show c'.chainRows.filter (fun r => r.tunnelId != c.nextTunnelId) =
      c.chainRows
    rw [hcchains, List.filter_append, List.filter_append]
    have hk : c.chainRows.filter
        (fun r => r.tunnelId != c.nextTunnelId) = c.chainRows := by
      apply List.filter_eq_self.mpr
      intro r hr
      have := hcc r hr
      simp only [bne_iff_ne]
      omega
    have hd1 : (lp.map (fun q =>
        (⟨c.nextTunnelId, q.1, q.2.1, q.2.2⟩ : ChainRow))).filter
          (fun r => r.tunnelId != c.nextTunnelId) = [] := by
      apply List.filter_eq_nil_iff.mpr
      intro r hr
      simp only [List.mem_map] at hr
      obtain ⟨q, _, rfl⟩ := hr
      simp
    have hd2 : (reserved.map (fun r =>
        (⟨c.nextTunnelId, r.chainType, r.shadowNodeId, r.port⟩ :
          ChainRow))).filter
          (fun r => r.tunnelId != c.nextTunnelId) = [] := by
      apply List.filter_eq_nil_iff.mpr
      intro r hr
      simp only [List.mem_map] at hr
      obtain ⟨ri, _, rfl⟩ := hr
      simp
    rw [hk, hd1, hd2, List.append_nil, List.append_nil]
  have hlp2 : pickLocals cd hops.enum [] = some lp := by
    rw [pickLocals_congr hcd_nodes hcd_chains hcd_fw hcd_act
      hops.enum []]
    exact hlp
  have hports2 : reserved2.map (fun r => r.port) =
      reserved.map (fun r => r.port) := by
    have h1 : reserved.map (fun r => r.port) =
        (reserved.map resProj).map (fun t => t.2.2.2.2) := by
      rw [List.map_map]
      rfl
    have h2 : reserved2.map (fun r => r.port) =
        (reserved2.map resProj).map (fun t => t.2.2.2.2) := by
      rw [List.map_map]
      rfl
    rw [h1, h2, hproj]
  refine ⟨?_, ?_, ?_⟩
  · show (c'.bindings.filter
        (fun b => b.tunnelId != c.nextTunnelId)).filter
        (fun b => b.tunnelId == c.nextTunnelId) = []
    apply List.filter_eq_nil_iff.mpr
    intro b hb
    have hne := (List.mem_filter.mp hb).2
    simp only [bne_iff_ne] at hne
    simp only [beq_iff_eq]
    exact hne
  · intro b hb hbt
    rw [hcbind] at hb
    rcases List.mem_append.mp hb with hb' | hb'
    · exfalso
      have h1 := hcb b hb'
      have h2 : b.tunnelId = c.nextTunnelId := hbt
      omega
    · simp only [List.mem_map] at hb'
      obtain ⟨ri, hri, rfl⟩ := hb'
      obtain ⟨row, hrowmem, hreq, hrst, hrlive, hrge⟩ :=
        forall₂_mem_right hpair ri hri
      have hrowp1 : row ∈ p1.runtimes := by
        rw [hrows]
        exact List.mem_append_right _ hrowmem
      constructor
      · refine ⟨releaseMark reserved (commitMark reserved row), ?_, ?_⟩
        · rw [hpdshape]
          exact List.mem_map.mpr ⟨row, hrowp1, rfl⟩
        · show (releaseMark reserved
              (commitMark reserved row)).reservationId =
            ri.reservationId
          rw [releaseMark_rid, commitMark_rid]
          exact hreq
      · intro r hr hrb
        rw [hpdshape] at hr
        simp only [List.mem_map] at hr
        obtain ⟨z, hz, rfl⟩ := hr
        apply releaseMark_status_of_hit
        apply List.any_eq_true.mpr
        refine ⟨ri, hri, ?_⟩
        simp only [commitMark_rid, beq_iff_eq]
        have h1 : (releaseMark reserved
            (commitMark reserved z)).reservationId =
            z.reservationId := by
          rw [releaseMark_rid, commitMark_rid]
        rw [← h1]
        exact hrb
  · refine ⟨pd2, { cd with
      chainRows := cd.chainRows ++ lp.map (fun q =>
        (⟨cd.nextTunnelId, q.1, q.2.1, q.2.2⟩ : ChainRow)) ++
        reserved2.map (fun r =>
          (⟨cd.nextTunnelId, r.chainType, r.shadowNodeId, r.port⟩ :
            ChainRow))
      bindings := cd.bindings ++ reserved2.map (fun r =>
        (⟨cd.nextTunnelId, r.chainType, r.shadowNodeId,
          r.reservationId, 1⟩ : Binding))
      tunnels := cd.tunnels ++ [cd.nextTunnelId]
      nextTunnelId := cd.nextTunnelId + 1 }, cd.nextTunnelId, ?_, ?_⟩
    · unfold createTunnel
      simp only [hlp2, hrh2, hca2]
    · unfold portsOfTunnel
      show ((cd.chainRows ++ lp.map (fun q =>
          (⟨cd.nextTunnelId, q.1, q.2.1, q.2.2⟩ : ChainRow)) ++
          reserved2.map (fun r =>
            (⟨cd.nextTunnelId, r.chainType, r.shadowNodeId, r.port⟩ :
              ChainRow))).filter
            (fun r => r.tunnelId == cd.nextTunnelId)).map
          (fun r => r.port) =
        (c'.chainRows.filter
            (fun r => r.tunnelId == c.nextTunnelId)).map
          (fun r => r.port)
      rw [hcd_chains, hcchains, List.filter_append, List.filter_append,
        List.filter_append, List.filter_append]
      have hoppOld1 : c.chainRows.filter
          (fun r => r.tunnelId == cd.nextTunnelId) = [] := by
        apply List.filter_eq_nil_iff.mpr
        intro r hr
        have := hcc r hr
        simp only [beq_iff_eq, htid2]
        intro hcon
        omega
      have hoppOld2 : c.chainRows.filter
          (fun r => r.tunnelId == c.nextTunnelId) = [] := by
        apply List.filter_eq_nil_iff.mpr
        intro r hr
        have := hcc r hr
        simp only [beq_iff_eq]
        intro hcon
        omega
      have hkeepL1 : (lp.map (fun q =>
          (⟨cd.nextTunnelId, q.1, q.2.1, q.2.2⟩ : ChainRow))).filter
            (fun r => r.tunnelId == cd.nextTunnelId) =
          lp.map (fun q =>
            (⟨cd.nextTunnelId, q.1, q.2.1, q.2.2⟩ : ChainRow)) := by
        apply List.filter_eq_self.mpr
        intro r hr
        simp only [List.mem_map] at hr
        obtain ⟨q, _, rfl⟩ := hr
        simp
      have hkeepL2 : (reserved2.map (fun r =>
          (⟨cd.nextTunnelId, r.chainType, r.shadowNodeId, r.port⟩ :
            ChainRow))).filter
            (fun r => r.tunnelId == cd.nextTunnelId) =
          reserved2.map (fun r =>
            (⟨cd.nextTunnelId, r.chainType, r.shadowNodeId, r.port⟩ :
              ChainRow)) := by
        apply List.filter_eq_self.mpr
        intro r hr
        simp only [List.mem_map] at hr
        obtain ⟨ri, _, rfl⟩ := hr
        simp
      have hkeepR1 : (lp.map (fun q =>
          (⟨c.nextTunnelId, q.1, q.2.1, q.2.2⟩ : ChainRow))).filter
            (fun r => r.tunnelId == c.nextTunnelId) =
          lp.map (fun q =>
            (⟨c.nextTunnelId, q.1, q.2.1, q.2.2⟩ : ChainRow)) := by
        apply List.filter_eq_self.mpr
        intro r hr
        simp only [List.mem_map] at hr
        obtain ⟨q, _, rfl⟩ := hr
        simp
      have hkeepR2 : (reserved.map (fun r =>
          (⟨c.nextTunnelId, r.chainType, r.shadowNodeId, r.port⟩ :
            ChainRow))).filter
            (fun r => r.tunnelId == c.nextTunnelId) =
          reserved.map (fun r =>
            (⟨c.nextTunnelId, r.chainType, r.shadowNodeId, r.port⟩ :
              ChainRow)) := by
        apply List.filter_eq_self.mpr
        intro r hr
        simp only [List.mem_map] at hr
        obtain ⟨ri, _, rfl⟩ := hr
        simp
      rw [hoppOld1, hoppOld2, hkeepL1, hkeepL2, hkeepR1, hkeepR2,
        List.nil_append, List.nil_append, List.map_append,
        List.map_append]
      have hlpPorts1 : (lp.map (fun q =>
          (⟨cd.nextTunnelId, q.1, q.2.1, q.2.2⟩ : ChainRow))).map
            (fun r => r.port) = lp.map (fun q => q.2.2) := by
        rw [List.map_map]
        rfl
      have hlpPorts2 : (lp.map (fun q =>
          (⟨c.nextTunnelId, q.1, q.2.1, q.2.2⟩ : ChainRow))).map
            (fun r => r.port) = lp.map (fun q => q.2.2) := by
        rw [List.map_map]
        rfl
      have hresPorts1 : (reserved2.map (fun r =>
          (⟨cd.nextTunnelId, r.chainType, r.shadowNodeId, r.port⟩ :
            ChainRow))).map (fun r => r.port) =
          reserved2.map (fun r => r.port) := by
        rw [List.map_map]
        rfl
      have hresPorts2 : (reserved.map (fun r =>
          (⟨c.nextTunnelId, r.chainType, r.shadowNodeId, r.port⟩ :
            ChainRow))).map (fun r => r.port) =
          reserved.map (fun r => r.port) := by
        rw [List.map_map]
        rfl
      rw [hlpPorts1, hlpPorts2, hresPorts1, hresPorts2, hports2]

/-- Witness for C3 at the dual-panel contract scenario: create `dual-1`
over the remote entry/middle/exit hops, delete it, and re-create as
`dual-2`; the replay succeeds with the same chain-row ports. -/
theorem tunnel_delete_releases_and_replays_witness :
    ∃ pr, createTunnel dualProvider dualConsumer "dual-1" dualHops =
        some pr ∧
      ∃ q, createTunnel (deleteTunnel pr.1 pr.2.1 pr.2.2).1
          (deleteTunnel pr.1 pr.2.1 pr.2.2).2 "dual-2" dualHops =
          some q ∧
        portsOfTunnel q.2.1 q.2.2 = portsOfTunnel pr.2.1 pr.2.2 := by
  cases hcr : createTunnel dualProvider dualConsumer "dual-1" dualHops with
  | none => exact absurd hcr (by decide)
  | some pr =>
    obtain ⟨pP, cC, tid⟩ := pr
    obtain ⟨-, -, p2, c2, tid2, hrep, hports⟩ :=
      tunnel_delete_releases_and_replays dualProvider dualConsumer
        "dual-1" "dual-2" dualHops pP cC tid (by decide) (by decide)
        (by decide) (by decide)
        (by intro e he r hr hst; exact absurd hr (List.not_mem_nil r))
        (by intro e he r hr hst; exact absurd hr (List.not_mem_nil r)) hcr
    exact ⟨(pP, cC, tid), rfl, (p2, c2, tid2), hrep, hports⟩


end Flvx
